import Mathlib

/-!
# GameKit fixed-timestep scheduler

A shallow embedding of the tick scheduler of
`branches/OgreKit/Core/Engine/gkEngine.cpp`:
`TickState`, the derivation of the tick configuration in `gkEngine::run`,
`gkEnginePrivate::frameRenderingQueued` and `gkEnginePrivate::tick`.

Conventions of the embedding.

* `unsigned long` values are natural numbers below `WORD`; every store of an
  arithmetic result reduces modulo `WORD`.
* `Ogre::Real` values are rationals, so rounding of floating point numbers is
  not part of the model.
* The clock `state.T` is a function from the index of a reading inside one
  call of `frameRenderingQueued` to the value that reading returns.  A clock
  that stands still during a call is a constant function.
* Calls into the window system and the scene are recorded in a trace of
  `Hook` values.

The last part embeds `MomoApp::update` of `OgreKit/Momo/Momo.cpp`, which
cycles through the animation clips of the demo on presses of the space key.
-/

namespace GameKit

/-- Number of values of an `unsigned long` (LP64). -/
def WORD : Nat := 2 ^ 64

/-- Unsigned addition `a + b` on `unsigned long`. -/
def uadd (a b : Nat) : Nat := (a + b) % WORD

/-- Unsigned subtraction `a - b` on `unsigned long`. -/
def usub (a b : Nat) : Nat := (a + (WORD - b % WORD)) % WORD

/-- The struct `TickState`; the clock pointer `T` is kept outside the record. -/
structure TickState where
  ticks : Nat
  rate : Nat
  skip : Nat
  loop : Nat
  cur : Nat
  next : Nat
  prev : Nat
  allot : Nat
  blend : ℚ
  fixed : ℚ
  invt : ℚ
  lock : Bool
  init : Bool
deriving DecidableEq

/-- Calls that leave the scheduler: the window system and the scene. -/
inductive Hook where
  | dispatchEvents
  | update (dt fixed : ℚ) (smooth : Bool)
  | endFrame
  | synchronizeMotion (rate blend : ℚ)
deriving DecidableEq

/-- The macro `ENGINE_TICKS_PER_SECOND`, `Real(60)`. -/
def ENGINE_TICKS_PER_SECOND : ℚ := 60

/-- The macro `ENGINE_TIME_SCALE`, `Real(0.001)`. -/
def ENGINE_TIME_SCALE : ℚ := 1 / 1000

/-- Modelled from the spec: `gkMax` is declared in a header that is not among
the sources; the spec reads `skip = max(rate/5, 1)`. -/
def gkMax (a b : Nat) : Nat := if a < b then b else a

/-- Conversion of a `Real` that is not negative to `unsigned long`: the
whole part, as a word. -/
def toULong (x : ℚ) : Nat := (Int.toNat (Int.floor x)) % WORD

/-- The `TickState` that `gkEngine::run` installs, as a function of the value
`tps` of `ENGINE_TICKS_PER_SECOND`.  The local `TickState state;` is not
initialised, so the fields `run` does not assign keep whatever `junk` holds.
The divisions are those of the source for `1 <= tps <= 1000`, where neither
divisor is zero. -/
def runStateOf (tps : ℚ) (junk : TickState) : TickState :=
  let state := junk
  let state := { state with rate := toULong tps }
  let state := { state with ticks := 1000 / state.rate }
  let state := { state with skip := gkMax (state.rate / 5) 1 }
  let state := { state with invt := 1 / (state.ticks : ℚ) }
  let state := { state with fixed := 1 / tps }
  { state with init := false }

/-- The state installed by `gkEngine::run`. -/
def runState (junk : TickState) : TickState :=
  runStateOf ENGINE_TICKS_PER_SECOND junk

/-- What `memset(&state, 0, sizeof(TickState))` leaves in the constructor. -/
def zeroState : TickState :=
  { ticks := 0, rate := 0, skip := 0, loop := 0, cur := 0, next := 0, prev := 0,
    allot := 0, blend := 0, fixed := 0, invt := 0, lock := false, init := false }

/-- A call of `frameRenderingQueued` in progress: the state, the number of
clock readings taken so far, the number of calls of `tick` so far and the
hooks invoked so far. -/
structure Frame where
  state : TickState
  reads : Nat
  ticked : Nat
  trace : List Hook
deriving DecidableEq

/-- The macro `GET_TICK`: the next reading of the clock, as `unsigned long`. -/
def GET_TICK (T : Nat → Nat) (f : Frame) : Nat × Frame :=
  (T f.reads % WORD, { f with reads := f.reads + 1 })

/-- The method `gkEnginePrivate::tick`.  Its two assertions, on the window
system and on the scene, hold in every call: `run` returns before it installs
the listener when either is missing. -/
def tick (f : Frame) (dt : ℚ) (smooth : Bool) : Frame :=
  { f with
    ticked := f.ticked + 1
    trace := f.trace ++
      [Hook.dispatchEvents, Hook.update dt f.state.fixed smooth, Hook.endFrame] }

/-- The assignment in the loop condition, `state.cur = GET_TICK(state.T)`. -/
def loopTest (T : Nat → Nat) (f : Frame) : Frame :=
  let (t, f) := GET_TICK T f
  { f with state := { f.state with cur := t } }

/-- The statement `if (!state.lock) tick(state.fixed, true);`. -/
def tickUnlessLocked (f : Frame) : Frame :=
  if !f.state.lock then tick f f.state.fixed true else f

/-- The statement
`if (((GET_TICK(state.T) - state.cur) * ENGINE_TIME_SCALE) > state.fixed) state.lock = true;`. -/
def checkOverrun (T : Nat → Nat) (f : Frame) : Frame :=
  if ((usub (GET_TICK T f).1 (GET_TICK T f).2.state.cur : Nat) : ℚ) * ENGINE_TIME_SCALE
      > (GET_TICK T f).2.state.fixed then
    { (GET_TICK T f).2 with state := { (GET_TICK T f).2.state with lock := true } }
  else (GET_TICK T f).2

/-- The statements `state.next += state.ticks; ++state.loop;`.  The increment
runs only when `loop < skip`, so it cannot wrap (`advance_loop_exact`) and is
written without reduction. -/
def advance (f : Frame) : Frame :=
  let f := { f with state := { f.state with next := uadd f.state.next f.state.ticks } }
  { f with state := { f.state with loop := f.state.loop + 1 } }

/-- The body of the catch-up loop. -/
def loopBody (T : Nat → Nat) (f : Frame) : Frame :=
  advance (checkOverrun T (tickUnlessLocked f))

/-- The catch-up loop
`while ((state.cur = GET_TICK(state.T)) > state.next && state.loop < state.skip)`. -/
def catchUp (T : Nat → Nat) (f : Frame) : Frame :=
  if (loopTest T f).state.cur > (loopTest T f).state.next ∧
      (loopTest T f).state.loop < (loopTest T f).state.skip then
    catchUp T (loopBody T (loopTest T f))
  else loopTest T f
termination_by f.state.skip - f.state.loop
decreasing_by
  rename_i h
  have hs : (loopBody T (loopTest T f)).state.skip = f.state.skip := by
    unfold loopBody advance checkOverrun tickUnlessLocked tick
    split <;> split <;> rfl
  have hl : (loopBody T (loopTest T f)).state.loop = f.state.loop + 1 := by
    unfold loopBody advance checkOverrun tickUnlessLocked tick
    split <;> split <;> rfl
  have h2 : f.state.loop < f.state.skip := h.2
  rw [hs, hl]
  omega

/-- The start of a call: `state.loop = 0; state.lock = false;` and the
first-frame branch `if (!state.init) { ... }`, which initialises the timer
states from one reading of the clock. -/
def frameEntry (T : Nat → Nat) (s : TickState) : Frame :=
  let f : Frame := { state := s, reads := 0, ticked := 0, trace := [] }
  let f := { f with state := { f.state with loop := 0 } }
  let f := { f with state := { f.state with lock := false } }
  if !f.state.init then
    let f := { f with state := { f.state with init := true } }
    let f := { (GET_TICK T f).2 with state := { (GET_TICK T f).2.state with cur := (GET_TICK T f).1 } }
    { f with state := { f.state with prev := f.state.cur, next := f.state.cur } }
  else f

/-- The value of the expression
`Ogre::Real(GET_TICK(state.T) + state.ticks - state.next) * state.invt` for a
clock reading `now`: the sum and the difference are unsigned. -/
def blendOf (now ticks next : Nat) (invt : ℚ) : ℚ :=
  ((usub (uadd now ticks) next : Nat) : ℚ) * invt

/-- The assignment of `state.blend` after the loop. -/
def setBlend (T : Nat → Nat) (f : Frame) : Frame :=
  { (GET_TICK T f).2 with
    state :=
      { f.state with
        blend := blendOf (GET_TICK T f).1 f.state.ticks f.state.next f.state.invt } }

/-- The statement
`if (state.blend >= 0 && state.blend <= 1) scene->synchronizeMotion(1.0, state.blend);`. -/
def synchronize (f : Frame) : Frame :=
  if f.state.blend ≥ 0 ∧ f.state.blend ≤ 1 then
    { f with trace := f.trace ++ [Hook.synchronizeMotion 1 f.state.blend] }
  else f

/-- The method `gkEnginePrivate::frameRenderingQueued` (it always returns
`true`; the result here is the state it leaves and what it called). -/
def frameRenderingQueued (T : Nat → Nat) (s : TickState) : Frame :=
  synchronize (setBlend T (catchUp T (frameEntry T s)))

/-- One frame under a clock that reads `now` throughout the call. -/
def onFrame (now : Nat) (s : TickState) : Frame :=
  frameRenderingQueued (fun _ => now) s

/-- States at the end of a frame, in a run that starts from `s0` and in which
every frame sees one clock value, never smaller than the frame before:
`ReachedAt s0 now s` holds when `s` is the state after a frame whose clock
value was `now`. -/
inductive ReachedAt (s0 : TickState) : Nat → TickState → Prop where
  | first (now : Nat) (hnow : now < WORD) : ReachedAt s0 now (onFrame now s0).state
  | frame (p now : Nat) (s : TickState) (hs : ReachedAt s0 p s) (hle : p ≤ now)
      (hnow : now < WORD) : ReachedAt s0 now (onFrame now s).state

/-- The three hooks of one simulation tick with fixed step `F`, in call order. -/
def tickHooks (F : ℚ) : List Hook :=
  [Hook.dispatchEvents, Hook.update F F true, Hook.endFrame]

/-- The calls of `scene->synchronizeMotion` in a trace. -/
def syncCalls (tr : List Hook) : List Hook :=
  tr.filter fun h =>
    match h with
    | Hook.synchronizeMotion _ _ => true
    | _ => false

/-- What the catch-up loop keeps true between the frame `f` on which it
starts and the frame `g` it has reached. -/
structure LoopInv (f g : Frame) : Prop where
  ticks : g.state.ticks = f.state.ticks
  rate : g.state.rate = f.state.rate
  skip : g.state.skip = f.state.skip
  prev : g.state.prev = f.state.prev
  allot : g.state.allot = f.state.allot
  blend : g.state.blend = f.state.blend
  fixed : g.state.fixed = f.state.fixed
  invt : g.state.invt = f.state.invt
  init : g.state.init = f.state.init
  loop_ge : f.state.loop ≤ g.state.loop
  loop_le : f.state.loop ≤ f.state.skip → g.state.loop ≤ f.state.skip
  ticked_ge : f.ticked ≤ g.ticked
  ticked_le : g.ticked + f.state.loop ≤ f.ticked + g.state.loop
  reads : g.reads + 2 * f.state.loop = f.reads + 2 * g.state.loop
  trace : g.trace =
    f.trace ++ (List.replicate (g.ticked - f.ticked) (tickHooks f.state.fixed)).flatten
  next : g.state.next % WORD =
    (f.state.next + (g.state.loop - f.state.loop) * f.state.ticks) % WORD

/-- The number of clock readings a call takes before its loop: one when the
first-frame branch runs, none otherwise. -/
def entryReads (s : TickState) : Nat := if s.init then 0 else 1

/-- The test `((GET_TICK(state.T) - state.cur) * ENGINE_TIME_SCALE) > state.fixed`
of loop iteration `j` (counted from 0) in a call whose loop starts at reading
`r0`: the iteration reads the clock at `r0 + 2 * j` for the loop condition,
which sets `cur`, and at `r0 + 2 * j + 1` after the tick. -/
def overrunAt (T : Nat → Nat) (r0 : Nat) (fixed : ℚ) (j : Nat) : Prop :=
  ((usub (T (r0 + 2 * j + 1) % WORD) (T (r0 + 2 * j) % WORD) : Nat) : ℚ) * ENGINE_TIME_SCALE
    > fixed

/-- What the catch-up loop keeps true of the lock between the frame `f` on
which it starts, with the lock open, and the frame `g` it has reached. -/
structure LockInv (T : Nat → Nat) (f g : Frame) : Prop where
  lock_iff : g.state.lock = true ↔
    ∃ j, j < g.state.loop - f.state.loop ∧ overrunAt T f.reads f.state.fixed j
  ticked_le : ∀ j, j < g.state.loop - f.state.loop → overrunAt T f.reads f.state.fixed j →
    g.ticked ≤ f.ticked + j + 1
  ticked_first : ∀ j, j < g.state.loop - f.state.loop →
    overrunAt T f.reads f.state.fixed j →
    (∀ i, i < j → ¬overrunAt T f.reads f.state.fixed i) → g.ticked = f.ticked + j + 1
  ticked_open : g.state.lock = false → g.ticked + f.state.loop = f.ticked + g.state.loop


/-- A clock that reads 100 at the first reading of a call and 150 from the
second reading on: 50 ms go by during the first tick. -/
def stallClock : Nat → Nat := fun k => if k = 0 then 100 else 150


/-- States at the end of a frame in a run that starts from `s0`, under any
clocks: `RunFrom s0 n s` holds when `s` is the state after some frame of the
run and `n` is the number of loop iterations of all frames so far. -/
inductive RunFrom (s0 : TickState) : Nat → TickState → Prop where
  | first (T : Nat → Nat) :
      RunFrom s0 (frameRenderingQueued T s0).state.loop (frameRenderingQueued T s0).state
  | frame (T : Nat → Nat) (n : Nat) (s : TickState) (hs : RunFrom s0 n s) :
      RunFrom s0 (n + (frameRenderingQueued T s).state.loop) (frameRenderingQueued T s).state


/-- The enumerators of `enum MomoActions` that come before `Momo_MAX`, in
the order of `Momo/Momo.cpp`. -/
def MomoActions : List String :=
  ["Momo_Carry", "Momo_Catch", "Momo_Death", "Momo_DieLava", "Momo_dj", "Momo_Drowning",
   "Momo_EdgeClimb", "Momo_EdgeIdle", "Momo_Fall", "Momo_FallUp", "Momo_Glide",
   "Momo_Hit_Lightly", "Momo_HitCarry", "Momo_Idle1", "Momo_IdleCapoeira", "Momo_IdleNasty",
   "Momo_Jump", "Momo_Kick", "Momo_Revive", "Momo_Run", "Momo_RunFaster", "Momo_ShimmyL",
   "Momo_ShimmyR", "Momo_TailWhip", "Momo_Throw1", "Momo_ThrowSheep", "Momo_ThrowWith",
   "Momo_ThrowWithout", "Momo_TurnL", "Momo_TurnR", "Momo_Walk", "Momo_WalkBack",
   "Momo_WalkFast", "Momo_WalkHand", "Momo_WalkSlow", "Momo_WallFlip"]

/-- The enumerator `Momo_MAX`: the number of enumerators before it. -/
def Momo_MAX : Int := (MomoActions.length : Int)

/-- The members of `MomoApp` that `MomoApp::update` reads or writes:
`m_cache`, `m_curAct` (an `int`) and, for each index, whether the entry of
`m_actions` is a non-null pointer. -/
structure MomoApp where
  m_cache : Bool
  m_curAct : Int
  m_actions : Int → Bool

/-- Calls that leave `MomoApp::update`. -/
inductive MomoCall where
  | updateCamera
  | setAction (index : Int)
  | actionUpdate (scale : ℚ)
deriving DecidableEq

/-- The members as the constructor of `MomoApp` leaves them, for a given
table of actions. -/
def MomoApp.start (actions : Int → Bool) : MomoApp :=
  { m_cache := false, m_curAct := 0, m_actions := actions }

/-- The statements of `MomoApp::update` under
`if (m_keyboard.isKeyDown(KC_SPACEKEY) && !m_cache)`.  The increment
`m_curAct ++` is on an `int`; it is exact below the largest `int`. -/
def MomoApp.advanceAction (app : MomoApp) (tr : List MomoCall) : MomoApp × List MomoCall :=
  let app := { app with m_cache := true }
  let app := { app with m_curAct := app.m_curAct + 1 }
  let app := if app.m_curAct ≥ Momo_MAX then { app with m_curAct := 0 } else app
  if app.m_curAct ≥ 0 ∧ app.m_curAct < Momo_MAX then
    if app.m_actions app.m_curAct then (app, tr ++ [MomoCall.setAction app.m_curAct])
    else (app, tr)
  else (app, tr)

/-- The method `MomoApp::update`; `space` is what
`m_keyboard.isKeyDown(KC_SPACEKEY)` returns during the call.  The result is
the members it leaves and the calls it made. -/
def MomoApp.update (app : MomoApp) (space : Bool) : MomoApp × List MomoCall :=
  let tr := [MomoCall.updateCamera]
  let scale : ℚ := 27 / 60
  let r :=
    if space && !app.m_cache then MomoApp.advanceAction app tr
    else if app.m_cache && !space then ({ app with m_cache := false }, tr)
    else (app, tr)
  (r.1, r.2 ++ [MomoCall.actionUpdate scale])

/-- Consecutive calls of `MomoApp::update`, one for each key state of the
list, in order. -/
def MomoApp.updates (app : MomoApp) (keys : List Bool) : MomoApp :=
  keys.foldl (fun a k => (MomoApp.update a k).1) app


/-! ## The steps of the loop -/

theorem loopTest_eq (T : Nat → Nat) (f : Frame) :
    loopTest T f =
      { state := { f.state with cur := T f.reads % WORD }, reads := f.reads + 1,
        ticked := f.ticked, trace := f.trace } := rfl

/-- Where the loop body runs, `++state.loop` in unsigned arithmetic is the
plain successor that `advance` stores. -/
theorem advance_loop_exact (f : Frame) (h : f.state.loop < f.state.skip)
    (hs : f.state.skip < WORD) : uadd f.state.loop 1 = (advance f).state.loop := by
  show (f.state.loop + 1) % WORD = f.state.loop + 1
  exact Nat.mod_eq_of_lt (by omega)

theorem tickUnlessLocked_state (f : Frame) : (tickUnlessLocked f).state = f.state := by
  unfold tickUnlessLocked tick
  split <;> rfl

theorem tickUnlessLocked_reads (f : Frame) : (tickUnlessLocked f).reads = f.reads := by
  unfold tickUnlessLocked tick
  split <;> rfl

theorem loopBody_state (T : Nat → Nat) (f : Frame) :
    (loopBody T f).state =
      { f.state with
        next := uadd f.state.next f.state.ticks
        loop := f.state.loop + 1
        lock := f.state.lock ||
          decide (((usub (T f.reads % WORD) f.state.cur : Nat) : ℚ) *
            ENGINE_TIME_SCALE > f.state.fixed) } := by
  unfold loopBody advance checkOverrun GET_TICK
  simp only [tickUnlessLocked_state, tickUnlessLocked_reads]
  split
  · next h => simp [h]
  · next h => simp [h]

theorem loopBody_reads (T : Nat → Nat) (f : Frame) :
    (loopBody T f).reads = f.reads + 1 := by
  unfold loopBody advance checkOverrun GET_TICK tickUnlessLocked tick
  split <;> split <;> rfl

theorem loopBody_ticked (T : Nat → Nat) (f : Frame) :
    (loopBody T f).ticked = if f.state.lock then f.ticked else f.ticked + 1 := by
  unfold loopBody advance checkOverrun GET_TICK tickUnlessLocked tick
  cases hl : f.state.lock <;> simp <;> split <;> rfl

theorem loopBody_trace (T : Nat → Nat) (f : Frame) :
    (loopBody T f).trace =
      if f.state.lock then f.trace else f.trace ++ tickHooks f.state.fixed := by
  unfold loopBody advance checkOverrun GET_TICK tickUnlessLocked tick tickHooks
  cases hl : f.state.lock <;> simp <;> split <;> rfl

/-- While rule for the catch-up loop: an invariant of the loop body holds of
the frame on which the loop condition fails. -/
theorem catchUp_rule (T : Nat → Nat) (P : Frame → Prop)
    (hstep : ∀ g, P g →
      ((loopTest T g).state.cur > (loopTest T g).state.next ∧
        (loopTest T g).state.loop < (loopTest T g).state.skip) →
      P (loopBody T (loopTest T g)))
    (f : Frame) (h : P f) :
    ∃ g, P g ∧
      ¬((loopTest T g).state.cur > (loopTest T g).state.next ∧
        (loopTest T g).state.loop < (loopTest T g).state.skip) ∧
      catchUp T f = loopTest T g := by
  induction f using catchUp.induct T with
  | case1 x hx ih =>
    obtain ⟨g, hg, hng, he⟩ := ih (hstep x h hx)
    refine ⟨g, hg, hng, ?_⟩
    rw [catchUp, if_pos hx, he]
  | case2 x hx =>
    refine ⟨x, h, hx, ?_⟩
    rw [catchUp, if_neg hx]

theorem LoopInv.refl (f : Frame) : LoopInv f f where
  ticks := rfl
  rate := rfl
  skip := rfl
  prev := rfl
  allot := rfl
  blend := rfl
  fixed := rfl
  invt := rfl
  init := rfl
  loop_ge := le_refl _
  loop_le := fun h => h
  ticked_ge := le_refl _
  ticked_le := le_refl _
  reads := rfl
  trace := by simp
  next := by simp

/-- One more iteration keeps the loop invariant. -/
theorem LoopInv.step (T : Nat → Nat) (f g : Frame) (h : LoopInv f g)
    (hg : (loopTest T g).state.loop < (loopTest T g).state.skip) :
    LoopInv f (loopBody T (loopTest T g)) := by
  have hl : g.state.loop < g.state.skip := hg
  have hs := h.skip
  have h1 := h.loop_ge
  have h2 := h.ticked_ge
  have h3 := h.ticked_le
  have h4 := h.reads
  have h5 := h.loop_le
  constructor
  · rw [loopBody_state]; exact h.ticks
  · rw [loopBody_state]; exact h.rate
  · rw [loopBody_state]; exact h.skip
  · rw [loopBody_state]; exact h.prev
  · rw [loopBody_state]; exact h.allot
  · rw [loopBody_state]; exact h.blend
  · rw [loopBody_state]; exact h.fixed
  · rw [loopBody_state]; exact h.invt
  · rw [loopBody_state]; exact h.init
  · rw [loopBody_state]; show f.state.loop ≤ g.state.loop + 1; omega
  · rw [loopBody_state]; show _ → g.state.loop + 1 ≤ f.state.skip; omega
  · rw [loopBody_ticked]; show f.ticked ≤ if g.state.lock then g.ticked else g.ticked + 1
    split <;> omega
  · rw [loopBody_ticked, loopBody_state]
    show (if g.state.lock then g.ticked else g.ticked + 1) + f.state.loop
      ≤ f.ticked + (g.state.loop + 1)
    split <;> omega
  · rw [loopBody_reads, loopBody_state]
    show g.reads + 1 + 1 + 2 * f.state.loop = f.reads + 2 * (g.state.loop + 1)
    omega
  · rw [loopBody_trace, loopBody_ticked]
    show (if g.state.lock then g.trace else g.trace ++ tickHooks g.state.fixed) =
      f.trace ++ (List.replicate ((if g.state.lock then g.ticked else g.ticked + 1) - f.ticked)
        (tickHooks f.state.fixed)).flatten
    split
    · exact h.trace
    · have e : g.ticked + 1 - f.ticked = (g.ticked - f.ticked) + 1 := by omega
      rw [e, List.replicate_succ', List.flatten_append, h.trace, h.fixed]
      simp
  · rw [loopBody_state]
    show uadd g.state.next g.state.ticks % WORD =
      (f.state.next + (g.state.loop + 1 - f.state.loop) * f.state.ticks) % WORD
    have h6 := h.next
    have e : (g.state.loop + 1 - f.state.loop) * f.state.ticks =
        (g.state.loop - f.state.loop) * f.state.ticks + f.state.ticks := by
      rw [show g.state.loop + 1 - f.state.loop = (g.state.loop - f.state.loop) + 1 by omega,
        Nat.succ_mul]
    rw [e, h.ticks]
    unfold uadd WORD at *
    omega

/-- The catch-up loop ends, on the test of a frame that satisfies the loop
invariant and fails the loop condition. -/
theorem catchUp_inv (T : Nat → Nat) (f : Frame) :
    ∃ g, LoopInv f g ∧
      ¬((loopTest T g).state.cur > (loopTest T g).state.next ∧
        (loopTest T g).state.loop < (loopTest T g).state.skip) ∧
      catchUp T f = loopTest T g :=
  catchUp_rule T (LoopInv f) (fun g hg hc => LoopInv.step T f g hg hc.2) f (LoopInv.refl f)

/-! ## The statements around the loop -/

theorem synchronize_state (f : Frame) : (synchronize f).state = f.state := by
  unfold synchronize
  split <;> rfl

theorem synchronize_reads (f : Frame) : (synchronize f).reads = f.reads := by
  unfold synchronize
  split <;> rfl

theorem synchronize_ticked (f : Frame) : (synchronize f).ticked = f.ticked := by
  unfold synchronize
  split <;> rfl

theorem synchronize_trace (f : Frame) :
    (synchronize f).trace =
      f.trace ++
        if 0 ≤ f.state.blend ∧ f.state.blend ≤ 1 then
          [Hook.synchronizeMotion 1 f.state.blend]
        else [] := by
  unfold synchronize
  split <;> simp_all

theorem setBlend_eq (T : Nat → Nat) (f : Frame) :
    setBlend T f =
      { state :=
          { f.state with
            blend := blendOf (T f.reads % WORD) f.state.ticks f.state.next f.state.invt }
        reads := f.reads + 1, ticked := f.ticked, trace := f.trace } := rfl

theorem frameEntry_init (T : Nat → Nat) (s : TickState) (h : s.init = true) :
    frameEntry T s =
      { state := { s with loop := 0, lock := false }, reads := 0, ticked := 0, trace := [] } := by
  simp [frameEntry, h]

theorem frameEntry_first (T : Nat → Nat) (s : TickState) (h : s.init = false) :
    frameEntry T s =
      { state :=
          { s with
            loop := 0, lock := false, init := true, cur := T 0 % WORD, prev := T 0 % WORD,
            next := T 0 % WORD }
        reads := 1, ticked := 0, trace := [] } := by
  simp [frameEntry, h, GET_TICK]

theorem frameEntry_loop (T : Nat → Nat) (s : TickState) : (frameEntry T s).state.loop = 0 := by
  cases h : s.init
  · rw [frameEntry_first T s h]
  · rw [frameEntry_init T s h]

theorem frameEntry_skip (T : Nat → Nat) (s : TickState) :
    (frameEntry T s).state.skip = s.skip := by
  cases h : s.init
  · rw [frameEntry_first T s h]
  · rw [frameEntry_init T s h]

theorem frameEntry_fixed (T : Nat → Nat) (s : TickState) :
    (frameEntry T s).state.fixed = s.fixed := by
  cases h : s.init
  · rw [frameEntry_first T s h]
  · rw [frameEntry_init T s h]

theorem frameEntry_reads (T : Nat → Nat) (s : TickState) :
    (frameEntry T s).reads = if s.init then 0 else 1 := by
  cases h : s.init
  · rw [frameEntry_first T s h]; rfl
  · rw [frameEntry_init T s h]; rfl

theorem frameEntry_ticked (T : Nat → Nat) (s : TickState) : (frameEntry T s).ticked = 0 := by
  cases h : s.init
  · rw [frameEntry_first T s h]
  · rw [frameEntry_init T s h]

theorem frameEntry_trace (T : Nat → Nat) (s : TickState) : (frameEntry T s).trace = [] := by
  cases h : s.init
  · rw [frameEntry_first T s h]
  · rw [frameEntry_init T s h]

/-- A call of `frameRenderingQueued` under any clock: the loop stops on a
frame `g` that satisfies the loop invariant, and the call ends with the blend
assignment and the interpolation test on `g`. -/
theorem frame_general (T : Nat → Nat) (s : TickState) :
    ∃ g, LoopInv (frameEntry T s) g ∧
      ¬((loopTest T g).state.cur > (loopTest T g).state.next ∧
        (loopTest T g).state.loop < (loopTest T g).state.skip) ∧
      frameRenderingQueued T s = synchronize (setBlend T (loopTest T g)) := by
  obtain ⟨g, hg, hn, he⟩ := catchUp_inv T (frameEntry T s)
  exact ⟨g, hg, hn, by rw [frameRenderingQueued, he]⟩

/-! ## A clock that stands still during the call -/

theorem usub_self (a : Nat) : usub a a = 0 := by
  unfold usub WORD
  omega

theorem uadd_le (a b : Nat) : uadd a b ≤ a + b := Nat.mod_le _ _

theorem uadd_lt (a b : Nat) : uadd a b < WORD := Nat.mod_lt _ (by unfold WORD; omega)

theorem uadd_uadd (a b c : Nat) : uadd (uadd a b) c = uadd a (b + c) := by
  unfold uadd WORD
  omega

theorem Frame.eq_of_fields (a b : Frame) (h1 : a.state = b.state) (h2 : a.reads = b.reads)
    (h3 : a.ticked = b.ticked) (h4 : a.trace = b.trace) : a = b := by
  cases a
  cases b
  simp_all

theorem loopTest_const (now : Nat) (f : Frame) (hnow : now < WORD) :
    loopTest (fun _ => now) f =
      { state := { f.state with cur := now }, reads := f.reads + 1,
        ticked := f.ticked, trace := f.trace } := by
  rw [loopTest_eq, Nat.mod_eq_of_lt hnow]

/-- One iteration of the loop body after the loop test, when the clock reads
`now` throughout, the lock is open and the fixed step is not negative. -/
theorem loopBody_const (now : Nat) (f : Frame) (hnow : now < WORD)
    (hlock : f.state.lock = false) (hfix : 0 ≤ f.state.fixed) :
    loopBody (fun _ => now) (loopTest (fun _ => now) f) =
      { state :=
          { f.state with
            cur := now, next := uadd f.state.next f.state.ticks, loop := f.state.loop + 1 }
        reads := f.reads + 2, ticked := f.ticked + 1
        trace := f.trace ++ tickHooks f.state.fixed } := by
  have hm : now % WORD = now := Nat.mod_eq_of_lt hnow
  have hng : ¬ (((0 : Nat) : ℚ) * ENGINE_TIME_SCALE > f.state.fixed) := by
    simp only [Nat.cast_zero, zero_mul, gt_iff_lt, not_lt]
    exact hfix
  rw [loopTest_const now f hnow]
  apply Frame.eq_of_fields
  · rw [loopBody_state]
    simp only [hm, usub_self now, hlock, hng, decide_False, Bool.or_false]
  · rw [loopBody_reads]
  · rw [loopBody_ticked]
    simp only [hlock, Bool.false_eq_true, if_false]
  · rw [loopBody_trace]
    simp only [hlock, Bool.false_eq_true, if_false]

/-- Exact result of the catch-up loop when the clock reads `now` throughout:
it runs `k` iterations when the first `k` tests succeed and the next fails. -/
theorem catchUp_const (now : Nat) (hnow : now < WORD) (k : Nat) :
    ∀ f : Frame, f.state.lock = false → 0 ≤ f.state.fixed → f.state.next < WORD →
      f.state.loop + k ≤ f.state.skip →
      (k = 0 ∨ f.state.next + (k - 1) * f.state.ticks < now) →
      (f.state.loop + k = f.state.skip ∨ now ≤ uadd f.state.next (k * f.state.ticks)) →
      catchUp (fun _ => now) f =
        { state :=
            { f.state with
              cur := now, next := uadd f.state.next (k * f.state.ticks)
              loop := f.state.loop + k }
          reads := f.reads + 2 * k + 1, ticked := f.ticked + k
          trace := f.trace ++ (List.replicate k (tickHooks f.state.fixed)).flatten } := by
  have hm : now % WORD = now := Nat.mod_eq_of_lt hnow
  induction k with
  | zero =>
    intro f _ _ hnext _ _ hexit
    have hn0 : uadd f.state.next (0 * f.state.ticks) = f.state.next := by
      unfold uadd; rw [Nat.zero_mul, Nat.add_zero]; exact Nat.mod_eq_of_lt hnext
    rw [hn0] at hexit
    rw [catchUp, if_neg]
    · rw [loopTest_eq, hn0, hm]; simp
    · rw [loopTest_eq, hm]
      show ¬(now > f.state.next ∧ f.state.loop < f.state.skip)
      omega
  | succ k ih =>
    intro f hlock hfix hnext hle hrun hexit
    have hprod : (k + 1) * f.state.ticks = k * f.state.ticks + f.state.ticks := Nat.succ_mul _ _
    have hrun1 : f.state.next + k * f.state.ticks < now := by
      rcases hrun with h | h
      · omega
      · simpa using h
    rw [catchUp, if_pos, loopBody_const now f hnow hlock hfix]
    · rw [ih]
      · simp only [uadd_uadd, List.replicate_succ, List.flatten_cons, List.append_assoc]
        have e1 : f.state.ticks + k * f.state.ticks = (k + 1) * f.state.ticks := by omega
        rw [e1]
        congr 1
        · congr 1; omega
        · omega
        · omega
      · exact hlock
      · exact hfix
      · exact uadd_lt _ _
      · show f.state.loop + 1 + k ≤ f.state.skip
        omega
      · show k = 0 ∨ uadd f.state.next f.state.ticks + (k - 1) * f.state.ticks < now
        rcases Nat.eq_zero_or_pos k with h0 | hpos
        · exact Or.inl h0
        · right
          have hu := uadd_le f.state.next f.state.ticks
          obtain ⟨j, rfl⟩ : ∃ j, k = j + 1 := ⟨k - 1, by omega⟩
          have e2 : (j + 1) * f.state.ticks = j * f.state.ticks + f.state.ticks :=
            Nat.succ_mul _ _
          simp only [Nat.add_sub_cancel]
          omega
      · show f.state.loop + 1 + k = f.state.skip ∨
          now ≤ uadd (uadd f.state.next f.state.ticks) (k * f.state.ticks)
        rw [uadd_uadd]
        have e1 : f.state.ticks + k * f.state.ticks = (k + 1) * f.state.ticks := by omega
        rw [e1]
        rcases hexit with h | h
        · left; omega
        · right; exact h
    · rw [loopTest_eq, hm]
      show now > f.state.next ∧ f.state.loop < f.state.skip
      omega


/-- Exact result of a frame after the first when the clock reads `now`
throughout and the loop runs `k` iterations. -/
theorem onFrame_eval (now : Nat) (k : Nat) (s : TickState) (hnow : now < WORD)
    (hinit : s.init = true) (hfix : 0 ≤ s.fixed) (hnext : s.next < WORD)
    (hk : k ≤ s.skip) (hrun : k = 0 ∨ s.next + (k - 1) * s.ticks < now)
    (hexit : k = s.skip ∨ now ≤ uadd s.next (k * s.ticks)) :
    onFrame now s =
      synchronize
        { state :=
            { s with
              loop := k, lock := false, cur := now, next := uadd s.next (k * s.ticks)
              blend := blendOf now s.ticks (uadd s.next (k * s.ticks)) s.invt }
          reads := 2 * k + 2, ticked := k
          trace := (List.replicate k (tickHooks s.fixed)).flatten } := by
  have hm : now % WORD = now := Nat.mod_eq_of_lt hnow
  rw [onFrame, frameRenderingQueued, frameEntry_init _ s hinit,
    catchUp_const now hnow k _ rfl hfix hnext (by simpa using hk) hrun
      (by simpa using hexit), setBlend_eq]
  simp only [hm, Nat.zero_add, List.nil_append]

/-- Exact result of the first frame when the clock reads `now` throughout. -/
theorem onFrame_first (now : Nat) (s : TickState) (hnow : now < WORD)
    (hinit : s.init = false) :
    onFrame now s =
      synchronize
        { state :=
            { s with
              loop := 0, lock := false, init := true, cur := now, prev := now, next := now
              blend := blendOf now s.ticks now s.invt }
          reads := 3, ticked := 0, trace := [] } := by
  have hm : now % WORD = now := Nat.mod_eq_of_lt hnow
  rw [onFrame, frameRenderingQueued, frameEntry_first _ s hinit, catchUp, if_neg, loopTest_eq,
    setBlend_eq]
  · simp only [hm]
  · rw [loopTest_eq]
    simp only [hm]
    omega


/-- The trace of a call under any clock: the hooks of the ticks it executed,
then the interpolation call when the blend is in range. -/
theorem frame_trace (T : Nat → Nat) (s : TickState) :
    (frameRenderingQueued T s).trace =
      (List.replicate (frameRenderingQueued T s).ticked (tickHooks s.fixed)).flatten ++
        if 0 ≤ (frameRenderingQueued T s).state.blend ∧
            (frameRenderingQueued T s).state.blend ≤ 1 then
          [Hook.synchronizeMotion 1 (frameRenderingQueued T s).state.blend]
        else [] := by
  obtain ⟨g, hg, -, he⟩ := frame_general T s
  have h1 := hg.trace
  rw [frameEntry_trace, frameEntry_ticked, frameEntry_fixed] at h1
  rw [he, synchronize_trace, synchronize_state, synchronize_ticked, setBlend_eq, loopTest_eq]
  simp only [h1, List.nil_append, Nat.sub_zero]

theorem syncCalls_tickHooks (n : Nat) (F : ℚ) :
    syncCalls (List.replicate n (tickHooks F)).flatten = [] := by
  induction n with
  | zero => rfl
  | succ n ih =>
    rw [List.replicate_succ, List.flatten_cons, syncCalls, List.filter_append]
    rw [syncCalls] at ih
    rw [ih]
    rfl

/-- The loop under a clock that reads `now` throughout keeps the tick
boundary below `now + ticks`, and stops either on `now <= next` or on
`loop >= skip`. -/
theorem catchUp_const_inv (now : Nat) (hnow : now < WORD) (f : Frame)
    (h1 : f.state.next < WORD) (h2 : f.state.next ≤ now + (f.state.ticks - 1)) :
    ∃ g, LoopInv f g ∧ g.state.next < WORD ∧ g.state.next ≤ now + (g.state.ticks - 1) ∧
      ¬(now > g.state.next ∧ g.state.loop < g.state.skip) ∧
      catchUp (fun _ => now) f =
        { state := { g.state with cur := now }, reads := g.reads + 1,
          ticked := g.ticked, trace := g.trace } := by
  obtain ⟨g, hg, hn, he⟩ := catchUp_rule (fun _ => now)
    (fun g => LoopInv f g ∧ g.state.next < WORD ∧ g.state.next ≤ now + (g.state.ticks - 1))
    (fun g hg hc => by
      refine ⟨LoopInv.step _ f g hg.1 hc.2, ?_, ?_⟩
      · rw [loopBody_state]
        exact uadd_lt _ _
      · rw [loopBody_state]
        have hc1 : now > g.state.next := by
          have := hc.1
          rw [loopTest_const now g hnow] at this
          exact this
        have hu := uadd_le g.state.next g.state.ticks
        show uadd g.state.next g.state.ticks ≤ now + (g.state.ticks - 1)
        omega)
    f ⟨LoopInv.refl f, h1, h2⟩
  refine ⟨g, hg.1, hg.2.1, hg.2.2, ?_, ?_⟩
  · rw [loopTest_const now g hnow] at hn
    exact hn
  · rw [he, loopTest_const now g hnow]

/-- What one frame under a clock that reads `now` throughout leaves, when the
state on entry is initialised and its tick boundary is below `now + ticks`. -/
theorem onFrame_inv (now : Nat) (hnow : now < WORD) (s : TickState)
    (hinit : s.init = true) (h1 : s.next < WORD) (h2 : s.next ≤ now + (s.ticks - 1)) :
    (onFrame now s).state.init = true ∧ (onFrame now s).state.cur = now ∧
    (onFrame now s).state.next < WORD ∧
    (onFrame now s).state.next ≤ now + ((onFrame now s).state.ticks - 1) ∧
    (onFrame now s).state.ticks = s.ticks ∧ (onFrame now s).state.skip = s.skip ∧
    (onFrame now s).state.fixed = s.fixed ∧ (onFrame now s).state.invt = s.invt ∧
    (onFrame now s).state.blend =
      blendOf now (onFrame now s).state.ticks (onFrame now s).state.next
        (onFrame now s).state.invt := by
  have hm : now % WORD = now := Nat.mod_eq_of_lt hnow
  obtain ⟨g, hg, hg1, hg2, -, he⟩ :=
    catchUp_const_inv now hnow (frameEntry (fun _ => now) s)
      (by rw [frameEntry_init _ s hinit]; exact h1)
      (by rw [frameEntry_init _ s hinit]; exact h2)
  have ht := hg.ticks
  have hs := hg.skip
  have hf := hg.fixed
  have hi := hg.invt
  have hin := hg.init
  rw [frameEntry_init _ s hinit] at ht hs hf hi hin
  rw [onFrame, frameRenderingQueued, he, synchronize_state, setBlend_eq]
  simp only [hm]
  exact ⟨by rw [hin, hinit], trivial, hg1, hg2, ht, hs, hf, hi, trivial⟩

/-- What the first frame leaves under a clock that reads `now` throughout. -/
theorem onFrame_first_inv (now : Nat) (hnow : now < WORD) (s : TickState)
    (hinit : s.init = false) :
    (onFrame now s).state.init = true ∧ (onFrame now s).state.cur = now ∧
    (onFrame now s).state.next < WORD ∧
    (onFrame now s).state.next ≤ now + ((onFrame now s).state.ticks - 1) ∧
    (onFrame now s).state.ticks = s.ticks ∧ (onFrame now s).state.skip = s.skip ∧
    (onFrame now s).state.fixed = s.fixed ∧ (onFrame now s).state.invt = s.invt ∧
    (onFrame now s).state.blend =
      blendOf now (onFrame now s).state.ticks (onFrame now s).state.next
        (onFrame now s).state.invt := by
  rw [onFrame_first now s hnow hinit, synchronize_state]
  exact ⟨rfl, rfl, hnow, Nat.le_add_right _ _, rfl, rfl, rfl, rfl, rfl⟩

/-- Invariant of the states reached under a non-decreasing clock from a
state that is not yet initialised. -/
theorem reached_inv (s0 : TickState) (h0 : s0.init = false) (p : Nat) (s : TickState)
    (hr : ReachedAt s0 p s) :
    p < WORD ∧ s.init = true ∧ s.cur = p ∧ s.next < WORD ∧ s.next ≤ p + (s.ticks - 1) ∧
    s.ticks = s0.ticks ∧ s.skip = s0.skip ∧ s.fixed = s0.fixed ∧ s.invt = s0.invt ∧
    s.blend = blendOf p s.ticks s.next s.invt := by
  induction hr with
  | first now hnow =>
    obtain ⟨a, b, c, d, e, f, g, h, i⟩ := onFrame_first_inv now hnow s0 h0
    exact ⟨hnow, a, b, c, d, e, f, g, h, i⟩
  | frame p now s _ hle hnow ih =>
    obtain ⟨_, hi, _, hn, hb, ht, hs, hf, hv, _⟩ := ih
    obtain ⟨a, b, c, d, e, f, g, h, i⟩ := onFrame_inv now hnow s hi hn (by omega)
    exact ⟨hnow, a, b, c, d, e.trans ht, f.trans hs, g.trans hf, h.trans hv, i⟩

/-- The conversion of a whole number below `WORD` to `unsigned long`. -/
theorem toULong_natCast (r : Nat) (h : r < WORD) : toULong (r : ℚ) = r := by
  rw [toULong, Int.floor_natCast, Int.toNat_natCast, Nat.mod_eq_of_lt h]

/-- The state that `run` installs: rate 60, 16 ms per tick, at most 12 ticks
per frame, a fixed step of 1/60 s. -/
theorem runState_eq (junk : TickState) :
    runState junk =
      { junk with
        rate := 60, ticks := 16, skip := 12, invt := 1 / 16, fixed := 1 / 60, init := false } := by
  have h60 : toULong 60 = 60 := by
    have h := toULong_natCast 60 (by unfold WORD; omega)
    rw [Nat.cast_ofNat] at h
    exact h
  simp only [runState, runStateOf, ENGINE_TICKS_PER_SECOND, h60, gkMax]
  norm_num


/-- A frame whose first clock reading is past the tick boundary, with a
positive catch-up bound, executes at least one tick. -/
theorem frame_ticks_pos (T : Nat → Nat) (s : TickState) (hinit : s.init = true)
    (hgt : T 0 % WORD > s.next) (hskip : 0 < s.skip) :
    0 < (frameRenderingQueued T s).state.loop ∧ 0 < (frameRenderingQueued T s).ticked := by
  have hc : (loopTest T (frameEntry T s)).state.cur > (loopTest T (frameEntry T s)).state.next ∧
      (loopTest T (frameEntry T s)).state.loop < (loopTest T (frameEntry T s)).state.skip := by
    rw [frameEntry_init T s hinit, loopTest_eq]
    exact ⟨hgt, hskip⟩
  obtain ⟨g, hg, -, he⟩ := catchUp_inv T (loopBody T (loopTest T (frameEntry T s)))
  have h1 := hg.loop_ge
  have h2 := hg.ticked_ge
  rw [loopBody_state] at h1
  rw [loopBody_ticked] at h2
  rw [frameEntry_init T s hinit, loopTest_eq] at h1 h2
  simp only [Bool.false_eq_true, if_false] at h1 h2
  rw [frameRenderingQueued, catchUp, if_pos hc, he, synchronize_state, synchronize_ticked,
    setBlend_eq, loopTest_eq]
  constructor
  · show 0 < g.state.loop
    omega
  · show 0 < g.ticked
    omega


/-- Fields of the state after a frame that follows the first, when the clock
reads `now` throughout and the loop runs `k` iterations. -/
theorem onFrame_fields (now : Nat) (k : Nat) (s : TickState) (hnow : now < WORD)
    (hinit : s.init = true) (hfix : 0 ≤ s.fixed) (hnext : s.next < WORD)
    (hk : k ≤ s.skip) (hrun : k = 0 ∨ s.next + (k - 1) * s.ticks < now)
    (hexit : k = s.skip ∨ now ≤ uadd s.next (k * s.ticks)) :
    (onFrame now s).state.loop = k ∧ (onFrame now s).ticked = k ∧
    (onFrame now s).state.next = uadd s.next (k * s.ticks) ∧
    (onFrame now s).state.blend = blendOf now s.ticks (uadd s.next (k * s.ticks)) s.invt ∧
    (onFrame now s).state.init = true ∧ (onFrame now s).state.ticks = s.ticks ∧
    (onFrame now s).state.skip = s.skip ∧ (onFrame now s).state.fixed = s.fixed ∧
    (onFrame now s).state.invt = s.invt ∧ (onFrame now s).state.cur = now ∧
    (onFrame now s).state.prev = s.prev := by
  rw [onFrame_eval now k s hnow hinit hfix hnext hk hrun hexit, synchronize_state,
    synchronize_ticked]
  exact ⟨rfl, rfl, rfl, rfl, hinit, rfl, rfl, rfl, rfl, rfl, rfl⟩

/-- Fields of the state after the first frame of the state that `run`
installs, when the clock reads `t0` throughout. -/
theorem run_first_fields (junk : TickState) (t0 : Nat) (h : t0 < WORD) :
    (onFrame t0 (runState junk)).state.loop = 0 ∧ (onFrame t0 (runState junk)).ticked = 0 ∧
    (onFrame t0 (runState junk)).state.next = t0 ∧
    (onFrame t0 (runState junk)).state.init = true ∧
    (onFrame t0 (runState junk)).state.ticks = 16 ∧
    (onFrame t0 (runState junk)).state.skip = 12 ∧
    (onFrame t0 (runState junk)).state.fixed = 1 / 60 ∧
    (onFrame t0 (runState junk)).state.invt = 1 / 16 ∧
    (onFrame t0 (runState junk)).state.cur = t0 ∧
    (onFrame t0 (runState junk)).state.prev = t0 := by
  have hi : (runState junk).init = false := by rw [runState_eq]
  rw [onFrame_first t0 _ h hi, synchronize_state, synchronize_ticked, runState_eq]
  exact ⟨rfl, rfl, rfl, rfl, rfl, rfl, rfl, rfl, rfl, rfl⟩

/-- The scenario of the spec for rate 60: after a first frame at 1000, the
frame at 1020 runs the loop twice, since 1020 is past the boundaries 1000 and
1016, and leaves the boundary at 1032. -/
theorem run_1000_1020 (junk : TickState) :
    (onFrame 1020 (onFrame 1000 (runState junk)).state).state.loop = 2 ∧
    (onFrame 1020 (onFrame 1000 (runState junk)).state).ticked = 2 ∧
    (onFrame 1020 (onFrame 1000 (runState junk)).state).state.next = 1032 ∧
    (onFrame 1020 (onFrame 1000 (runState junk)).state).state.blend = 1 / 4 := by
  have h1000 : 1000 < WORD := by unfold WORD; omega
  have h1020 : 1020 < WORD := by unfold WORD; omega
  obtain ⟨_, _, hn, hi, ht, hs, hf, hv, _, _⟩ := run_first_fields junk 1000 h1000
  have hu : uadd 1000 (2 * 16) = 1032 := by unfold uadd WORD; omega
  obtain ⟨a, b, c, d, _⟩ := onFrame_fields 1020 2 (onFrame 1000 (runState junk)).state h1020 hi
    (by rw [hf]; norm_num) (by rw [hn]; exact h1000) (by rw [hs]; omega)
    (by rw [hn, ht]; omega) (by rw [hn, ht, hu]; omega)
  rw [hn, ht, hu] at c
  rw [hn, ht, hv, hu] at d
  refine ⟨a, b, c, ?_⟩
  rw [d, blendOf]
  have hb : usub (uadd 1020 16) 1032 = 4 := by unfold usub uadd WORD; omega
  rw [hb]
  norm_num

/-- After a first frame at 0, a frame at 10 runs the loop once: 10 is past
the boundary 0, though less than one tick length has gone by. -/
theorem run_0_10 (junk : TickState) :
    (onFrame 10 (onFrame 0 (runState junk)).state).state.loop = 1 ∧
    (onFrame 10 (onFrame 0 (runState junk)).state).ticked = 1 ∧
    (onFrame 10 (onFrame 0 (runState junk)).state).state.next = 16 := by
  have h0 : 0 < WORD := by unfold WORD; omega
  have h10 : 10 < WORD := by unfold WORD; omega
  obtain ⟨_, _, hn, hi, ht, hs, hf, hv, _, _⟩ := run_first_fields junk 0 h0
  have hu : uadd 0 (1 * 16) = 16 := by unfold uadd WORD; omega
  obtain ⟨a, b, c, _⟩ := onFrame_fields 10 1 (onFrame 0 (runState junk)).state h10 hi
    (by rw [hf]; norm_num) (by rw [hn]; exact h0) (by rw [hs]; omega)
    (by rw [hn, ht]; omega) (by rw [hn, ht, hu]; omega)
  rw [hn, ht, hu] at c
  exact ⟨a, b, c⟩

/-- After a first frame at 0 and a frame at 5000, which the bound cuts off
after 12 ticks with the boundary at 192, a frame at the same clock value 5000
executes 12 more ticks. -/
theorem run_0_5000_5000 (junk : TickState) :
    (onFrame 5000 (onFrame 0 (runState junk)).state).state.loop = 12 ∧
    (onFrame 5000 (onFrame 0 (runState junk)).state).state.next = 192 ∧
    (onFrame 5000 (onFrame 5000 (onFrame 0 (runState junk)).state).state).state.loop = 12 ∧
    (onFrame 5000 (onFrame 5000 (onFrame 0 (runState junk)).state).state).ticked = 12 ∧
    (onFrame 5000 (onFrame 5000 (onFrame 0 (runState junk)).state).state).state.next = 384 := by
  have h0 : 0 < WORD := by unfold WORD; omega
  have h5000 : 5000 < WORD := by unfold WORD; omega
  obtain ⟨_, _, hn, hi, ht, hs, hf, hv, _, _⟩ := run_first_fields junk 0 h0
  have hu : uadd 0 (12 * 16) = 192 := by unfold uadd WORD; omega
  obtain ⟨a, _, c, _, hi2, ht2, hs2, hf2, _⟩ :=
    onFrame_fields 5000 12 (onFrame 0 (runState junk)).state h5000 hi
      (by rw [hf]; norm_num) (by rw [hn]; exact h0) (by rw [hs])
      (by rw [hn, ht]; omega) (by rw [hs]; exact Or.inl rfl)
  rw [hn, ht, hu] at c
  rw [ht] at ht2
  rw [hs] at hs2
  rw [hf] at hf2
  have hu2 : uadd 192 (12 * 16) = 384 := by unfold uadd WORD; omega
  obtain ⟨a3, b3, c3, _⟩ :=
    onFrame_fields 5000 12 (onFrame 5000 (onFrame 0 (runState junk)).state).state h5000 hi2
      (by rw [hf2]; norm_num) (by rw [c]; unfold WORD; omega) (by rw [hs2])
      (by rw [c, ht2]; omega) (by rw [hs2]; exact Or.inl rfl)
  rw [c, ht2, hu2] at c3
  exact ⟨a, c, a3, b3, c3⟩


/-- Exact result of a frame after the first when the clock reads `now`
throughout and has not passed the tick boundary: the loop does not run. -/
theorem onFrame_idle (now : Nat) (s : TickState) (hnow : now < WORD) (hinit : s.init = true)
    (hle : now ≤ s.next) :
    onFrame now s =
      synchronize
        { state :=
            { s with
              loop := 0, lock := false, cur := now
              blend := blendOf now s.ticks s.next s.invt }
          reads := 2, ticked := 0, trace := [] } := by
  have hm : now % WORD = now := Nat.mod_eq_of_lt hnow
  rw [onFrame, frameRenderingQueued, frameEntry_init _ s hinit, catchUp, if_neg, loopTest_eq,
    setBlend_eq]
  · simp only [hm]
  · rw [loopTest_eq]
    simp only [hm]
    omega


/-! ## The lock under any clock -/

theorem lockInv_refl (T : Nat → Nat) (f : Frame) (hl : f.state.lock = false) :
    LockInv T f f where
  lock_iff := by
    rw [hl]
    constructor
    · intro h; cases h
    · rintro ⟨j, hj, -⟩; omega
  ticked_le := fun j hj _ => by omega
  ticked_first := fun j hj _ _ => by omega
  ticked_open := fun _ => rfl

/-- The lock after one more iteration: it was closed, or this iteration
overran. -/
theorem loopBody_lock (T : Nat → Nat) (f g : Frame) (h : LoopInv f g) :
    ((loopBody T (loopTest T g)).state.lock = true ↔
      g.state.lock = true ∨
        overrunAt T f.reads f.state.fixed (g.state.loop - f.state.loop)) := by
  have h1 := h.loop_ge
  have h4 := h.reads
  have hr : g.reads = f.reads + 2 * (g.state.loop - f.state.loop) := by omega
  rw [loopBody_state, loopTest_eq]
  simp only [Bool.or_eq_true, decide_eq_true_eq]
  rw [overrunAt, ← hr, h.fixed]

/-- One more iteration keeps the lock invariant. -/
theorem lockInv_step (T : Nat → Nat) (f g : Frame) (h : LoopInv f g) (hk : LockInv T f g) :
    LockInv T f (loopBody T (loopTest T g)) := by
  have h1 := h.loop_ge
  have h3 := h.ticked_le
  have hlk := loopBody_lock T f g h
  have hlp : (loopBody T (loopTest T g)).state.loop = g.state.loop + 1 := by
    rw [loopBody_state]; rfl
  have htk : (loopBody T (loopTest T g)).ticked =
      if g.state.lock then g.ticked else g.ticked + 1 := by
    rw [loopBody_ticked]; rfl
  have hsub : g.state.loop + 1 - f.state.loop = (g.state.loop - f.state.loop) + 1 := by omega
  constructor
  · rw [hlk, hlp, hsub, hk.lock_iff]
    constructor
    · rintro (⟨j, hj, ho⟩ | ho)
      · exact ⟨j, by omega, ho⟩
      · exact ⟨_, by omega, ho⟩
    · rintro ⟨j, hj, ho⟩
      rcases Nat.lt_succ_iff_lt_or_eq.mp hj with hlt | heq
      · exact Or.inl ⟨j, hlt, ho⟩
      · right; rw [← heq]; exact ho
  · intro j hj ho
    rw [hlp, hsub] at hj
    rw [htk]
    rcases Nat.lt_succ_iff_lt_or_eq.mp hj with hlt | heq
    · have hlock : g.state.lock = true := hk.lock_iff.mpr ⟨j, hlt, ho⟩
      have := hk.ticked_le j hlt ho
      simp only [hlock, if_true]
      exact this
    · split <;> omega
  · intro j hj ho hfirst
    rw [hlp, hsub] at hj
    rw [htk]
    rcases Nat.lt_succ_iff_lt_or_eq.mp hj with hlt | heq
    · have hlock : g.state.lock = true := hk.lock_iff.mpr ⟨j, hlt, ho⟩
      have := hk.ticked_first j hlt ho hfirst
      simp only [hlock, if_true]
      exact this
    · have hopen : g.state.lock = false := by
        cases hc : g.state.lock
        · rfl
        · obtain ⟨i, hi, hoi⟩ := hk.lock_iff.mp hc
          exact absurd hoi (hfirst i (by omega))
      have := hk.ticked_open hopen
      simp only [hopen, Bool.false_eq_true, if_false]
      omega
  · intro hopen
    rw [hlp, htk]
    have hgo : g.state.lock = false := by
      cases hc : g.state.lock
      · rfl
      · have := hlk.mpr (Or.inl hc)
        rw [hopen] at this
        cases this
    have := hk.ticked_open hgo
    simp only [hgo, Bool.false_eq_true, if_false]
    omega

/-- The catch-up loop, started with the lock open, ends on the test of a
frame that satisfies the loop invariant and the lock invariant. -/
theorem catchUp_lock (T : Nat → Nat) (f : Frame) (hl : f.state.lock = false) :
    ∃ g, LoopInv f g ∧ LockInv T f g ∧
      ¬((loopTest T g).state.cur > (loopTest T g).state.next ∧
        (loopTest T g).state.loop < (loopTest T g).state.skip) ∧
      catchUp T f = loopTest T g := by
  obtain ⟨g, hg, hn, he⟩ := catchUp_rule T (fun g => LoopInv f g ∧ LockInv T f g)
    (fun g hg hc => ⟨LoopInv.step T f g hg.1 hc.2, lockInv_step T f g hg.1 hg.2⟩)
    f ⟨LoopInv.refl f, lockInv_refl T f hl⟩
  exact ⟨g, hg.1, hg.2, hn, he⟩

theorem frameEntry_lock (T : Nat → Nat) (s : TickState) :
    (frameEntry T s).state.lock = false := by
  cases h : s.init
  · rw [frameEntry_first T s h]
  · rw [frameEntry_init T s h]

theorem frameEntry_ticks (T : Nat → Nat) (s : TickState) :
    (frameEntry T s).state.ticks = s.ticks := by
  cases h : s.init
  · rw [frameEntry_first T s h]
  · rw [frameEntry_init T s h]

theorem frameEntry_entryReads (T : Nat → Nat) (s : TickState) :
    (frameEntry T s).reads = entryReads s := by
  rw [frameEntry_reads, entryReads]

/-- A call of `frameRenderingQueued` under any clock, with the lock
invariant of its loop. -/
theorem frame_lock (T : Nat → Nat) (s : TickState) :
    ∃ g, LoopInv (frameEntry T s) g ∧ LockInv T (frameEntry T s) g ∧
      frameRenderingQueued T s = synchronize (setBlend T (loopTest T g)) := by
  obtain ⟨g, hg, hk, -, he⟩ := catchUp_lock T (frameEntry T s) (frameEntry_lock T s)
  exact ⟨g, hg, hk, by rw [frameRenderingQueued, he]⟩


/-! ## The tick boundary under any clock -/

/-- The catch-up loop keeps the tick boundary a word. -/
theorem catchUp_next_lt (T : Nat → Nat) (f : Frame) (h : f.state.next < WORD) :
    ∃ g, LoopInv f g ∧ g.state.next < WORD ∧ catchUp T f = loopTest T g := by
  obtain ⟨g, hg, -, he⟩ := catchUp_rule T (fun g => LoopInv f g ∧ g.state.next < WORD)
    (fun g hg hc => ⟨LoopInv.step T f g hg.1 hc.2, by rw [loopBody_state]; exact uadd_lt _ _⟩)
    f ⟨LoopInv.refl f, h⟩
  exact ⟨g, hg.1, hg.2, he⟩

/-- What a call under any clock does to the tick boundary and to the fields
it only reads. -/
theorem frame_next (T : Nat → Nat) (s : TickState) :
    (frameRenderingQueued T s).state.next % WORD =
      ((frameEntry T s).state.next + (frameRenderingQueued T s).state.loop * s.ticks) % WORD ∧
    (frameRenderingQueued T s).state.rate = s.rate ∧
    (frameRenderingQueued T s).state.ticks = s.ticks ∧
    (frameRenderingQueued T s).state.skip = s.skip ∧
    (frameRenderingQueued T s).state.fixed = s.fixed ∧
    (frameRenderingQueued T s).state.invt = s.invt ∧
    (frameRenderingQueued T s).state.prev = (frameEntry T s).state.prev ∧
    (frameRenderingQueued T s).state.init = true := by
  obtain ⟨g, hg, -, he⟩ := frame_general T s
  have h4 := hg.next
  have h5 := hg.rate
  have h6 := hg.ticks
  have h7 := hg.skip
  have h8 := hg.fixed
  have h9 := hg.invt
  have h10 := hg.init
  rw [frameEntry_loop, frameEntry_ticks] at h4
  rw [he, synchronize_state, setBlend_eq, loopTest_eq]
  refine ⟨h4, ?_, ?_, ?_, ?_, ?_, hg.prev, ?_⟩
  · rw [show g.state.rate = _ from h5]
    cases h : s.init
    · rw [frameEntry_first T s h]
    · rw [frameEntry_init T s h]
  · rw [show g.state.ticks = _ from h6, frameEntry_ticks]
  · rw [show g.state.skip = _ from h7, frameEntry_skip]
  · rw [show g.state.fixed = _ from h8, frameEntry_fixed]
  · rw [show g.state.invt = _ from h9]
    cases h : s.init
    · rw [frameEntry_first T s h]
    · rw [frameEntry_init T s h]
  · rw [show g.state.init = _ from h10]
    cases h : s.init
    · rw [frameEntry_first T s h]
    · rw [frameEntry_init T s h]; exact h

/-- A call keeps the tick boundary a word when it is one on loop entry. -/
theorem frame_next_lt (T : Nat → Nat) (s : TickState)
    (h : (frameEntry T s).state.next < WORD) :
    (frameRenderingQueued T s).state.next < WORD := by
  obtain ⟨g, -, hlt, he⟩ := catchUp_next_lt T (frameEntry T s) h
  rw [frameRenderingQueued, he, synchronize_state, setBlend_eq, loopTest_eq]
  exact hlt

/-- Invariant of a run under any clocks from a state that is not yet
initialised: the tick boundary is the value of the first frame, kept in
`prev`, plus the tick length times the number of loop iterations so far, as
a word; the configuration is that of the start. -/
theorem run_inv (s0 : TickState) (h0 : s0.init = false) (n : Nat) (s : TickState)
    (hr : RunFrom s0 n s) :
    s.init = true ∧ s.next < WORD ∧ s.next % WORD = (s.prev + n * s.ticks) % WORD ∧
    s.rate = s0.rate ∧ s.ticks = s0.ticks ∧ s.skip = s0.skip ∧ s.fixed = s0.fixed ∧
    s.invt = s0.invt := by
  induction hr with
  | first T =>
    obtain ⟨a, b, c, d, e, f, g, h⟩ := frame_next T s0
    have hlt : (frameEntry T s0).state.next < WORD := by
      rw [frameEntry_first T s0 h0]
      exact Nat.mod_lt _ (by unfold WORD; omega)
    refine ⟨h, frame_next_lt T s0 hlt, ?_, b, c, d, e, f⟩
    rw [a, g, c, frameEntry_first T s0 h0]
  | frame T n s _ ih =>
    obtain ⟨hi, hlt, hn, h1, h2, h3, h4, h5⟩ := ih
    obtain ⟨a, b, c, d, e, f, g, h⟩ := frame_next T s
    have hlt2 : (frameEntry T s).state.next < WORD := by
      rw [frameEntry_init T s hi]; exact hlt
    refine ⟨h, frame_next_lt T s hlt2, ?_, b.trans h1, c.trans h2, d.trans h3, e.trans h4,
      f.trans h5⟩
    rw [a, g, c, frameEntry_init T s hi, Nat.add_mul]
    show (s.next + (frameRenderingQueued T s).state.loop * s.ticks) % WORD =
      (s.prev + (n * s.ticks + (frameRenderingQueued T s).state.loop * s.ticks)) % WORD
    unfold WORD at *
    omega


/-- When the tick length divides `WORD`, a boundary that is a start value
plus a multiple of the tick length as a word differs from the start value by
a whole multiple of the tick length. -/
theorem dvd_of_word_congr (t a b n : Nat) (hW : t ∣ WORD)
    (h : a % WORD = (b + n * t) % WORD) : (t : ℤ) ∣ (a : ℤ) - (b : ℤ) := by
  have h1 : a ≡ b + n * t [MOD WORD] := h
  have h2 : a ≡ b + n * t [MOD t] := Nat.ModEq.of_dvd hW h1
  have h3 : b + n * t ≡ b [MOD t] := by
    unfold Nat.ModEq
    rw [Nat.add_mul_mod_self_right]
  have h4 : b ≡ a [MOD t] := (h2.trans h3).symm
  exact (Nat.modEq_iff_dvd.mp h4)


/-! ## The demo: cycling through the animation clips -/

theorem Momo_MAX_eq : Momo_MAX = 36 := rfl

/-- The members after an update in which the space key is down and was not
down before. -/
theorem update_pressed (app : MomoApp) (hc : app.m_cache = false)
    (h0 : 0 ≤ app.m_curAct) (h1 : app.m_curAct < Momo_MAX) :
    (MomoApp.update app true).1.m_cache = true ∧
    (MomoApp.update app true).1.m_curAct = (app.m_curAct + 1) % Momo_MAX := by
  rw [Momo_MAX_eq] at h1
  simp only [MomoApp.update, MomoApp.advanceAction, hc, Momo_MAX_eq, Bool.not_false,
    Bool.and_self, if_true]
  by_cases h35 : app.m_curAct + 1 ≥ 36
  · have e : app.m_curAct = 35 := by omega
    simp only [e]
    split_ifs <;> simp_all
  · have e : (app.m_curAct + 1) % 36 = app.m_curAct + 1 := by omega
    rw [e]
    simp only [h35, if_false]
    split_ifs <;> simp_all

/-- The members after an update in which the space key is up, or was
already down before. -/
theorem update_idle (app : MomoApp) (space : Bool)
    (h : ¬(space = true ∧ app.m_cache = false)) :
    (MomoApp.update app space).1.m_cache = (app.m_cache && space) ∧
    (MomoApp.update app space).1.m_curAct = app.m_curAct := by
  cases hs : space <;> cases hc : app.m_cache <;>
    simp_all [MomoApp.update]

/-- An update keeps the clip index in range. -/
theorem update_range (app : MomoApp) (space : Bool)
    (h0 : 0 ≤ app.m_curAct) (h1 : app.m_curAct < Momo_MAX) :
    0 ≤ (MomoApp.update app space).1.m_curAct ∧
    (MomoApp.update app space).1.m_curAct < Momo_MAX := by
  by_cases h : space = true ∧ app.m_cache = false
  · obtain ⟨hs, hc⟩ := h
    subst hs
    rw [(update_pressed app hc h0 h1).2]
    rw [Momo_MAX_eq] at h1 ⊢
    omega
  · rw [(update_idle app space h).2]
    exact ⟨h0, h1⟩

/-- Any sequence of updates keeps the clip index in range. -/
theorem updates_range (keys : List Bool) :
    ∀ app : MomoApp, 0 ≤ app.m_curAct → app.m_curAct < Momo_MAX →
      0 ≤ (MomoApp.updates app keys).m_curAct ∧
      (MomoApp.updates app keys).m_curAct < Momo_MAX := by
  induction keys with
  | nil => intro app h0 h1; exact ⟨h0, h1⟩
  | cons k ks ih =>
    intro app h0 h1
    obtain ⟨a, b⟩ := update_range app k h0 h1
    exact ih (MomoApp.update app k).1 a b

/-- While the space key stays down and the cache is set, updates leave the
clip index and the cache as they are. -/
theorem updates_held (n : Nat) :
    ∀ app : MomoApp, app.m_cache = true →
      (MomoApp.updates app (List.replicate n true)).m_curAct = app.m_curAct ∧
      (MomoApp.updates app (List.replicate n true)).m_cache = true := by
  induction n with
  | zero => intro app hc; exact ⟨rfl, hc⟩
  | succ n ih =>
    intro app hc
    have hi := update_idle app true (by simp [hc])
    rw [hc] at hi
    obtain ⟨a, b⟩ := ih (MomoApp.update app true).1 hi.1
    rw [List.replicate_succ]
    show (MomoApp.updates (MomoApp.update app true).1 (List.replicate n true)).m_curAct = _ ∧
      (MomoApp.updates (MomoApp.update app true).1 (List.replicate n true)).m_cache = true
    exact ⟨a.trans hi.2, b⟩


/-! ## Claims -/

/-- C1 (catch-up bound).  Under any clock and from any state, one call of
`frameRenderingQueued` ends with `loop <= skip`, has called `tick` at most
`loop` times, and has read the clock once for the first-frame branch if it
ran, twice per loop iteration, once for the failing loop test and once for
the blend: the loop ran `loop` iterations, at most `skip`. -/
theorem C1_catch_up_bound (T : Nat → Nat) (s : TickState) :
    (frameRenderingQueued T s).state.skip = s.skip ∧
    (frameRenderingQueued T s).state.loop ≤ s.skip ∧
    (frameRenderingQueued T s).ticked ≤ (frameRenderingQueued T s).state.loop ∧
    (frameRenderingQueued T s).reads =
      (if s.init then 0 else 1) + 2 * (frameRenderingQueued T s).state.loop + 2 := by
  obtain ⟨g, hg, -, he⟩ := frame_general T s
  have h1 := hg.skip
  have h2 := hg.loop_le
  have h3 := hg.ticked_le
  have h4 := hg.reads
  rw [frameEntry_loop, frameEntry_skip] at h2
  rw [frameEntry_loop, frameEntry_ticked] at h3
  rw [frameEntry_loop, frameEntry_reads] at h4
  rw [frameEntry_skip] at h1
  rw [he]
  simp only [synchronize_state, synchronize_ticked, synchronize_reads, setBlend_eq, loopTest_eq]
  refine ⟨h1, h2 (Nat.zero_le _), ?_, ?_⟩
  · omega
  · omega

/-- C2 (exact catch-up after a stall).  In a run that starts from a state
that is not initialised and has a fixed step that is not negative, under a
non-decreasing clock that stands still during each call: when the frame
before saw the clock value `p` and this frame sees `p + G` with
`G > skip * ticks`, this frame runs the loop `skip` times and executes
`skip` ticks. -/
theorem C2_exact_catch_up (s0 : TickState) (h0 : s0.init = false) (hfix : 0 ≤ s0.fixed)
    (p : Nat) (s : TickState) (hr : ReachedAt s0 p s) (G : Nat) (hG : G > s.skip * s.ticks)
    (hnow : p + G < WORD) :
    (onFrame (p + G) s).state.loop = s.skip ∧ (onFrame (p + G) s).ticked = s.skip := by
  obtain ⟨_, hi, _, hn, hb, _, _, hf, _, _⟩ := reached_inv s0 h0 p s hr
  have hrun : s.skip = 0 ∨ s.next + (s.skip - 1) * s.ticks < p + G := by
    rcases Nat.eq_zero_or_pos s.skip with hz | hpos
    · exact Or.inl hz
    · right
      obtain ⟨j, hj⟩ : ∃ j, s.skip = j + 1 := ⟨s.skip - 1, by omega⟩
      have e : (j + 1) * s.ticks = j * s.ticks + s.ticks := Nat.succ_mul _ _
      rw [hj] at hG ⊢
      simp only [Nat.add_sub_cancel]
      omega
  rw [onFrame_eval (p + G) s.skip s hnow hi (by rw [hf]; exact hfix) hn (le_refl _) hrun
    (Or.inl rfl), synchronize_state, synchronize_ticked]
  exact ⟨rfl, rfl⟩

/-- C2 at the scenario of the spec: after a first frame at 0, a frame at 5000
with 16 ms ticks and a bound of 12 executes 12 ticks. -/
theorem C2_exact_catch_up_witness :
    (runState zeroState).init = false ∧ 0 ≤ (runState zeroState).fixed ∧
    ReachedAt (runState zeroState) 0 (onFrame 0 (runState zeroState)).state ∧
    5000 > (onFrame 0 (runState zeroState)).state.skip *
      (onFrame 0 (runState zeroState)).state.ticks ∧
    0 + 5000 < WORD ∧
    (onFrame 0 (runState zeroState)).state.skip = 12 ∧
    (onFrame 0 (runState zeroState)).state.ticks = 16 ∧
    (onFrame (0 + 5000) (onFrame 0 (runState zeroState)).state).state.loop =
      (onFrame 0 (runState zeroState)).state.skip ∧
    (onFrame (0 + 5000) (onFrame 0 (runState zeroState)).state).ticked =
      (onFrame 0 (runState zeroState)).state.skip := by
  have hw : (0 : Nat) < WORD := by unfold WORD; omega
  have hi : (runState zeroState).init = false := by rw [runState_eq]
  have hf : 0 ≤ (runState zeroState).fixed := by rw [runState_eq]; norm_num
  have hs : (onFrame 0 (runState zeroState)).state.skip = 12 := by
    rw [onFrame_first 0 _ hw hi, synchronize_state, runState_eq]
  have ht : (onFrame 0 (runState zeroState)).state.ticks = 16 := by
    rw [onFrame_first 0 _ hw hi, synchronize_state, runState_eq]
  have hg : 5000 > (onFrame 0 (runState zeroState)).state.skip *
      (onFrame 0 (runState zeroState)).state.ticks := by
    rw [hs, ht]; omega
  have hn : 0 + 5000 < WORD := by unfold WORD; omega
  exact ⟨hi, hf, ReachedAt.first 0 hw, hg, hn, hs, ht,
    C2_exact_catch_up (runState zeroState) hi hf 0 _ (ReachedAt.first 0 hw) 5000 hg hn⟩

/-- C3 (first frame).  From a state with `init = false`, under a clock that
reads `now` throughout the call, the call sets `init` and sets `cur`, `next`
and `prev` to `now`; the loop does not run and no tick is executed. -/
theorem C3_first_frame (s : TickState) (now : Nat) (hinit : s.init = false)
    (hnow : now < WORD) :
    (onFrame now s).state.init = true ∧ (onFrame now s).state.cur = now ∧
    (onFrame now s).state.next = now ∧ (onFrame now s).state.prev = now ∧
    (onFrame now s).state.loop = 0 ∧ (onFrame now s).ticked = 0 ∧
    (∀ h ∈ (onFrame now s).trace, ∃ r b, h = Hook.synchronizeMotion r b) := by
  rw [onFrame_first now s hnow hinit, synchronize_state, synchronize_ticked, synchronize_trace]
  refine ⟨rfl, rfl, rfl, rfl, rfl, rfl, ?_⟩
  intro h hh
  split at hh
  · simp only [List.nil_append, List.mem_singleton] at hh
    exact ⟨_, _, hh⟩
  · simp at hh

/-- C3 at the state that `run` installs and the clock value 1000. -/
theorem C3_first_frame_witness :
    (runState zeroState).init = false ∧ 1000 < WORD ∧
    (onFrame 1000 (runState zeroState)).state.init = true ∧
    (onFrame 1000 (runState zeroState)).state.cur = 1000 ∧
    (onFrame 1000 (runState zeroState)).state.next = 1000 ∧
    (onFrame 1000 (runState zeroState)).state.prev = 1000 ∧
    (onFrame 1000 (runState zeroState)).state.loop = 0 ∧
    (onFrame 1000 (runState zeroState)).ticked = 0 ∧
    (∀ h ∈ (onFrame 1000 (runState zeroState)).trace, ∃ r b, h = Hook.synchronizeMotion r b) := by
  have hi : (runState zeroState).init = false := by rw [runState_eq]
  have hn : 1000 < WORD := by unfold WORD; omega
  exact ⟨hi, hn, C3_first_frame (runState zeroState) 1000 hi hn⟩

/-- C4 (interpolation gating).  Under any clock and from any state, the trace
of a call holds one call of `synchronizeMotion`, with rate 1 and the blend
the call stored, when that blend lies in `[0, 1]`, and none otherwise; the
stored blend is the value computed from the last clock reading of the call. -/
theorem C4_interpolation_gating (T : Nat → Nat) (s : TickState) :
    syncCalls (frameRenderingQueued T s).trace =
      (if 0 ≤ (frameRenderingQueued T s).state.blend ∧
          (frameRenderingQueued T s).state.blend ≤ 1 then
        [Hook.synchronizeMotion 1 (frameRenderingQueued T s).state.blend]
      else []) ∧
    (syncCalls (frameRenderingQueued T s).trace).length ≤ 1 ∧
    (frameRenderingQueued T s).state.blend =
      blendOf (T ((frameRenderingQueued T s).reads - 1) % WORD)
        (frameRenderingQueued T s).state.ticks (frameRenderingQueued T s).state.next
        (frameRenderingQueued T s).state.invt := by
  have h1 : syncCalls (frameRenderingQueued T s).trace =
      (if 0 ≤ (frameRenderingQueued T s).state.blend ∧
          (frameRenderingQueued T s).state.blend ≤ 1 then
        [Hook.synchronizeMotion 1 (frameRenderingQueued T s).state.blend]
      else []) := by
    rw [frame_trace T s, syncCalls, List.filter_append]
    have := syncCalls_tickHooks (frameRenderingQueued T s).ticked s.fixed
    rw [syncCalls] at this
    rw [this]
    split <;> rfl
  refine ⟨h1, ?_, ?_⟩
  · rw [h1]
    split <;> simp
  · obtain ⟨g, -, -, he⟩ := frame_general T s
    rw [he, synchronize_state, synchronize_reads, setBlend_eq, loopTest_eq]
    rfl

/-- C5 (blend range when not lagging).  In a run that starts from a state
that is not initialised, has a tick length `0 < ticks < WORD` and
`invt = 1 / ticks`, under a non-decreasing clock that stands still during
each call: when a frame with clock value `now` ends with `now <= next`, the
blend it stored is `(now + ticks - next) * invt` and lies in `[0, 1]`. -/
theorem C5_blend_range (s0 : TickState) (h0 : s0.init = false) (hpos : 0 < s0.ticks)
    (hlt : s0.ticks < WORD) (hinvt : s0.invt = 1 / (s0.ticks : ℚ))
    (now : Nat) (s : TickState) (hr : ReachedAt s0 now s) (hend : now ≤ s.next) :
    s.blend = ((now + s.ticks - s.next : Nat) : ℚ) * s.invt ∧
    s.invt = 1 / (s.ticks : ℚ) ∧ 0 ≤ s.blend ∧ s.blend ≤ 1 := by
  obtain ⟨hnow, _, _, hn, hb, ht, _, _, hv, hbl⟩ := reached_inv s0 h0 now s hr
  have hu : usub (uadd now s.ticks) s.next = now + s.ticks - s.next := by
    unfold usub uadd WORD at *
    omega
  have hiv : s.invt = 1 / (s.ticks : ℚ) := by rw [hv, ht, hinvt]
  have hbl2 : s.blend = ((now + s.ticks - s.next : Nat) : ℚ) * s.invt := by
    rw [hbl, blendOf, hu]
  have htp : (0 : ℚ) < (s.ticks : ℚ) := by
    rw [ht]; exact_mod_cast hpos
  have hle : ((now + s.ticks - s.next : Nat) : ℚ) ≤ (s.ticks : ℚ) := by
    exact_mod_cast (by omega : now + s.ticks - s.next ≤ s.ticks)
  refine ⟨hbl2, hiv, ?_, ?_⟩
  · rw [hbl2, hiv]
    positivity
  · rw [hbl2, hiv, mul_one_div, div_le_one htp]
    exact hle

/-- C5 at the state that `run` installs: after frames at 0 and at 10 the
boundary is 16, and the blend of the frame at 10 is in range. -/
theorem C5_blend_range_witness :
    (runState zeroState).init = false ∧ 0 < (runState zeroState).ticks ∧
    (runState zeroState).ticks < WORD ∧
    (runState zeroState).invt = 1 / ((runState zeroState).ticks : ℚ) ∧
    ReachedAt (runState zeroState) 10
      (onFrame 10 (onFrame 0 (runState zeroState)).state).state ∧
    10 ≤ (onFrame 10 (onFrame 0 (runState zeroState)).state).state.next ∧
    (onFrame 10 (onFrame 0 (runState zeroState)).state).state.blend =
      ((10 + (onFrame 10 (onFrame 0 (runState zeroState)).state).state.ticks -
        (onFrame 10 (onFrame 0 (runState zeroState)).state).state.next : Nat) : ℚ) *
        (onFrame 10 (onFrame 0 (runState zeroState)).state).state.invt ∧
    (onFrame 10 (onFrame 0 (runState zeroState)).state).state.invt =
      1 / ((onFrame 10 (onFrame 0 (runState zeroState)).state).state.ticks : ℚ) ∧
    0 ≤ (onFrame 10 (onFrame 0 (runState zeroState)).state).state.blend ∧
    (onFrame 10 (onFrame 0 (runState zeroState)).state).state.blend ≤ 1 := by
  have h0 : (0 : Nat) < WORD := by unfold WORD; omega
  have h10 : 10 < WORD := by unfold WORD; omega
  have hi : (runState zeroState).init = false := by rw [runState_eq]
  have hp : 0 < (runState zeroState).ticks := by rw [runState_eq]; exact Nat.succ_pos 15
  have hl : (runState zeroState).ticks < WORD := by
    rw [runState_eq]; show 16 < WORD; unfold WORD; omega
  have hv : (runState zeroState).invt = 1 / ((runState zeroState).ticks : ℚ) := by
    rw [runState_eq]; norm_num
  have hr : ReachedAt (runState zeroState) 10
      (onFrame 10 (onFrame 0 (runState zeroState)).state).state :=
    ReachedAt.frame 0 10 _ (ReachedAt.first 0 h0) (Nat.zero_le _) h10
  obtain ⟨_, _, c⟩ := run_0_10 zeroState
  have hend : 10 ≤ (onFrame 10 (onFrame 0 (runState zeroState)).state).state.next := by
    rw [c]; omega
  exact ⟨hi, hp, hl, hv, hr, hend,
    C5_blend_range (runState zeroState) hi hp hl hv 10 _ hr hend⟩

/-- C6 fails as stated: after a first frame at 0 of the state that `run`
installs (16 ms ticks), the frame at 10, a gap of 10 < 16, executes one tick
and moves the boundary from 0 to 16. -/
theorem C6_sub_tick_gap_counterexample :
    (runState zeroState).init = false ∧
    ReachedAt (runState zeroState) 0 (onFrame 0 (runState zeroState)).state ∧
    10 < (onFrame 0 (runState zeroState)).state.ticks ∧
    (onFrame 0 (runState zeroState)).state.next = 0 ∧
    (onFrame (0 + 10) (onFrame 0 (runState zeroState)).state).state.loop = 1 ∧
    (onFrame (0 + 10) (onFrame 0 (runState zeroState)).state).ticked = 1 ∧
    (onFrame (0 + 10) (onFrame 0 (runState zeroState)).state).state.next = 16 ∧
    ¬((onFrame (0 + 10) (onFrame 0 (runState zeroState)).state).state.loop = 0 ∧
      (onFrame (0 + 10) (onFrame 0 (runState zeroState)).state).ticked = 0 ∧
      (onFrame (0 + 10) (onFrame 0 (runState zeroState)).state).state.next =
        (onFrame 0 (runState zeroState)).state.next) := by
  have h0 : 0 < WORD := by unfold WORD; omega
  obtain ⟨_, _, hn, _, ht, _⟩ := run_first_fields zeroState 0 h0
  obtain ⟨a, b, c⟩ := run_0_10 zeroState
  refine ⟨by rw [runState_eq], ReachedAt.first 0 h0, by rw [ht]; omega, hn, a, b, c, ?_⟩
  intro h
  rw [a] at h
  exact absurd h.1 (by decide)

/-- C6 as amended.  In a run that starts from a state that is not initialised
and has `ticks < WORD`, under a non-decreasing clock that stands still during
each call: when the frame before saw `p` and this frame sees `p + G`, this
frame executes no tick if `p + G <= next`; then `loop = 0`, `next` is
unchanged, the blend is `(now + ticks - next) * invt` and the gap is below
one tick length.  If `next < p + G` and `skip > 0` it executes a tick. -/
theorem C6_sub_tick_gap_amended (s0 : TickState) (h0 : s0.init = false)
    (hlt : s0.ticks < WORD) (p : Nat) (s : TickState) (hr : ReachedAt s0 p s) (G : Nat)
    (hnow : p + G < WORD) :
    (p + G ≤ s.next →
      (onFrame (p + G) s).state.loop = 0 ∧ (onFrame (p + G) s).ticked = 0 ∧
      (onFrame (p + G) s).state.next = s.next ∧
      (onFrame (p + G) s).state.blend = ((p + G + s.ticks - s.next : Nat) : ℚ) * s.invt ∧
      G ≤ s.ticks - 1) ∧
    (s.next < p + G → 0 < s.skip →
      0 < (onFrame (p + G) s).state.loop ∧ 0 < (onFrame (p + G) s).ticked) := by
  obtain ⟨_, hi, _, hn, hb, ht, _, _, _, _⟩ := reached_inv s0 h0 p s hr
  constructor
  · intro hle
    rw [onFrame_idle (p + G) s hnow hi hle, synchronize_state, synchronize_ticked]
    refine ⟨rfl, rfl, rfl, ?_, by omega⟩
    show blendOf (p + G) s.ticks s.next s.invt = _
    have hu : usub (uadd (p + G) s.ticks) s.next = p + G + s.ticks - s.next := by
      rw [← ht] at hlt
      unfold usub uadd WORD at *
      omega
    rw [blendOf, hu]
  · intro hgt hskip
    exact frame_ticks_pos (fun _ => p + G) s hi (by rw [Nat.mod_eq_of_lt hnow]; exact hgt) hskip

/-- C6 as amended, at the state that `run` installs: frames at 0 and at 10,
then a frame at 12 = 10 + 2, before the boundary 16. -/
theorem C6_sub_tick_gap_amended_witness :
    (runState zeroState).init = false ∧ (runState zeroState).ticks < WORD ∧
    ReachedAt (runState zeroState) 10
      (onFrame 10 (onFrame 0 (runState zeroState)).state).state ∧
    10 + 2 < WORD ∧
    (10 + 2 ≤ (onFrame 10 (onFrame 0 (runState zeroState)).state).state.next →
      (onFrame (10 + 2) (onFrame 10 (onFrame 0 (runState zeroState)).state).state).state.loop
        = 0 ∧
      (onFrame (10 + 2) (onFrame 10 (onFrame 0 (runState zeroState)).state).state).ticked = 0 ∧
      (onFrame (10 + 2) (onFrame 10 (onFrame 0 (runState zeroState)).state).state).state.next
        = (onFrame 10 (onFrame 0 (runState zeroState)).state).state.next ∧
      (onFrame (10 + 2) (onFrame 10 (onFrame 0 (runState zeroState)).state).state).state.blend
        = ((10 + 2 + (onFrame 10 (onFrame 0 (runState zeroState)).state).state.ticks -
            (onFrame 10 (onFrame 0 (runState zeroState)).state).state.next : Nat) : ℚ) *
          (onFrame 10 (onFrame 0 (runState zeroState)).state).state.invt ∧
      2 ≤ (onFrame 10 (onFrame 0 (runState zeroState)).state).state.ticks - 1) ∧
    (10 + 2 ≤ (onFrame 10 (onFrame 0 (runState zeroState)).state).state.next) ∧
    ((onFrame 10 (onFrame 0 (runState zeroState)).state).state.next < 10 + 2 →
      0 < (onFrame 10 (onFrame 0 (runState zeroState)).state).state.skip →
      0 < (onFrame (10 + 2)
        (onFrame 10 (onFrame 0 (runState zeroState)).state).state).state.loop ∧
      0 < (onFrame (10 + 2) (onFrame 10 (onFrame 0 (runState zeroState)).state).state).ticked) := by
  have h0 : 0 < WORD := by unfold WORD; omega
  have h10 : 10 < WORD := by unfold WORD; omega
  have h12 : 10 + 2 < WORD := by unfold WORD; omega
  have hi : (runState zeroState).init = false := by rw [runState_eq]
  have hl : (runState zeroState).ticks < WORD := by
    rw [runState_eq]; show 16 < WORD; unfold WORD; omega
  have hr : ReachedAt (runState zeroState) 10
      (onFrame 10 (onFrame 0 (runState zeroState)).state).state :=
    ReachedAt.frame 0 10 _ (ReachedAt.first 0 h0) (Nat.zero_le _) h10
  obtain ⟨_, _, c⟩ := run_0_10 zeroState
  have key := C6_sub_tick_gap_amended (runState zeroState) hi hl 10 _ hr 2 h12
  exact ⟨hi, hl, hr, h12, key.1, by rw [c]; omega, key.2⟩

/-- C7 fails as stated: after a first frame at 0 of the state that `run`
installs and a frame at 5000, which the bound cuts off after 12 ticks with
the boundary at 192, a second call at the same clock value 5000 executes 12
more ticks and moves the boundary to 384. -/
theorem C7_idempotence_counterexample :
    (runState zeroState).init = false ∧
    ReachedAt (runState zeroState) 5000
      (onFrame 5000 (onFrame 0 (runState zeroState)).state).state ∧
    (onFrame 5000 (onFrame 0 (runState zeroState)).state).state.next = 192 ∧
    (onFrame 5000 (onFrame 5000 (onFrame 0 (runState zeroState)).state).state).state.loop
      = 12 ∧
    (onFrame 5000 (onFrame 5000 (onFrame 0 (runState zeroState)).state).state).ticked = 12 ∧
    (onFrame 5000 (onFrame 5000 (onFrame 0 (runState zeroState)).state).state).state.next
      = 384 ∧
    ¬((onFrame 5000 (onFrame 5000 (onFrame 0 (runState zeroState)).state).state).state.loop
        = 0 ∧
      (onFrame 5000 (onFrame 5000 (onFrame 0 (runState zeroState)).state).state).ticked = 0 ∧
      (onFrame 5000 (onFrame 5000 (onFrame 0 (runState zeroState)).state).state).state.next
        = (onFrame 5000 (onFrame 0 (runState zeroState)).state).state.next) := by
  have h0 : 0 < WORD := by unfold WORD; omega
  have h5000 : 5000 < WORD := by unfold WORD; omega
  obtain ⟨_, b, c, d, e⟩ := run_0_5000_5000 zeroState
  refine ⟨by rw [runState_eq],
    ReachedAt.frame 0 5000 _ (ReachedAt.first 0 h0) (Nat.zero_le _) h5000, b, c, d, e, ?_⟩
  intro h
  rw [c] at h
  exact absurd h.1 (by decide)

/-- C7 as amended.  In a run that starts from a state that is not
initialised, under a non-decreasing clock that stands still during each call:
when the call before saw the clock value `now` and ended with `now <= next`,
a second call with the same clock value executes no tick, leaves `next`
unchanged and stores the same blend.  When the call before ended with
`next < now` and `skip > 0`, the second call executes a tick. -/
theorem C7_idempotence_amended (s0 : TickState) (h0 : s0.init = false) (now : Nat)
    (s : TickState) (hr : ReachedAt s0 now s) :
    (now ≤ s.next →
      (onFrame now s).state.loop = 0 ∧ (onFrame now s).ticked = 0 ∧
      (onFrame now s).state.next = s.next ∧ (onFrame now s).state.blend = s.blend) ∧
    (s.next < now → 0 < s.skip →
      0 < (onFrame now s).state.loop ∧ 0 < (onFrame now s).ticked) := by
  obtain ⟨hnow, hi, _, _, _, _, _, _, _, hbl⟩ := reached_inv s0 h0 now s hr
  constructor
  · intro hle
    rw [onFrame_idle now s hnow hi hle, synchronize_state, synchronize_ticked]
    exact ⟨rfl, rfl, rfl, hbl.symm⟩
  · intro hgt hskip
    exact frame_ticks_pos (fun _ => now) s hi (by rw [Nat.mod_eq_of_lt hnow]; exact hgt) hskip

/-- C7 as amended, at the state that `run` installs: frames at 0 and at 10,
which leaves the boundary at 16, then a second call at 10. -/
theorem C7_idempotence_amended_witness :
    (runState zeroState).init = false ∧
    ReachedAt (runState zeroState) 10
      (onFrame 10 (onFrame 0 (runState zeroState)).state).state ∧
    10 ≤ (onFrame 10 (onFrame 0 (runState zeroState)).state).state.next ∧
    (10 ≤ (onFrame 10 (onFrame 0 (runState zeroState)).state).state.next →
      (onFrame 10 (onFrame 10 (onFrame 0 (runState zeroState)).state).state).state.loop = 0 ∧
      (onFrame 10 (onFrame 10 (onFrame 0 (runState zeroState)).state).state).ticked = 0 ∧
      (onFrame 10 (onFrame 10 (onFrame 0 (runState zeroState)).state).state).state.next
        = (onFrame 10 (onFrame 0 (runState zeroState)).state).state.next ∧
      (onFrame 10 (onFrame 10 (onFrame 0 (runState zeroState)).state).state).state.blend
        = (onFrame 10 (onFrame 0 (runState zeroState)).state).state.blend) ∧
    ((onFrame 10 (onFrame 0 (runState zeroState)).state).state.next < 10 →
      0 < (onFrame 10 (onFrame 0 (runState zeroState)).state).state.skip →
      0 < (onFrame 10 (onFrame 10 (onFrame 0 (runState zeroState)).state).state).state.loop ∧
      0 < (onFrame 10 (onFrame 10 (onFrame 0 (runState zeroState)).state).state).ticked) := by
  have h0 : 0 < WORD := by unfold WORD; omega
  have h10 : 10 < WORD := by unfold WORD; omega
  have hi : (runState zeroState).init = false := by rw [runState_eq]
  have hr : ReachedAt (runState zeroState) 10
      (onFrame 10 (onFrame 0 (runState zeroState)).state).state :=
    ReachedAt.frame 0 10 _ (ReachedAt.first 0 h0) (Nat.zero_le _) h10
  obtain ⟨_, _, c⟩ := run_0_10 zeroState
  have key := C7_idempotence_amended (runState zeroState) hi 10 _ hr
  exact ⟨hi, hr, by rw [c]; omega, key.1, key.2⟩


/-- C8 fails as stated: in the scenario for rate 60, after the first frame at
1000 the frame at 1020 does not stop after one tick with the boundary at
1016; it executes two ticks and leaves the boundary at 1032. -/
theorem C8_scenario_counterexample :
    ¬((onFrame 1020 (onFrame 1000 (runState zeroState)).state).ticked = 1 ∧
      (onFrame 1020 (onFrame 1000 (runState zeroState)).state).state.next = 1016 ∧
      (onFrame 1020 (onFrame 1000 (runState zeroState)).state).state.loop = 1) := by
  obtain ⟨_, b, _⟩ := run_1000_1020 zeroState
  intro h
  rw [b] at h
  exact absurd h.1 (by decide)

/-- C8 as amended.  With the state that `run` installs (16 ms ticks, at most
12 per frame, `invt = 1/16`), whatever the fields it leaves unassigned: the
first frame at 1000 only initialises (`cur = next = prev = 1000`, no tick);
the second frame at 1020 executes two ticks, since 1020 is past the
boundaries 1000 and 1016, leaves `next = 1032` and `loop = 2`, and computes
the blend from `1020 + 16 - 1032 = 4` multiplied by `invt`, which is 1/4. -/
theorem C8_scenario_amended (junk : TickState) :
    (runState junk).ticks = 16 ∧ (runState junk).skip = 12 ∧ (runState junk).invt = 1 / 16 ∧
    (onFrame 1000 (runState junk)).state.cur = 1000 ∧
    (onFrame 1000 (runState junk)).state.next = 1000 ∧
    (onFrame 1000 (runState junk)).state.prev = 1000 ∧
    (onFrame 1000 (runState junk)).ticked = 0 ∧
    (onFrame 1020 (onFrame 1000 (runState junk)).state).ticked = 2 ∧
    (onFrame 1020 (onFrame 1000 (runState junk)).state).state.loop = 2 ∧
    (onFrame 1020 (onFrame 1000 (runState junk)).state).state.next = 1032 ∧
    (onFrame 1020 (onFrame 1000 (runState junk)).state).state.blend =
      ((1020 + 16 - 1032 : Nat) : ℚ) * (onFrame 1000 (runState junk)).state.invt ∧
    (onFrame 1020 (onFrame 1000 (runState junk)).state).state.blend = 1 / 4 := by
  have h1000 : 1000 < WORD := by unfold WORD; omega
  obtain ⟨_, f2, f3, _, _, _, _, f8, f9, f10⟩ := run_first_fields junk 1000 h1000
  obtain ⟨a, b, c, d⟩ := run_1000_1020 junk
  refine ⟨by rw [runState_eq], by rw [runState_eq], by rw [runState_eq],
    f9, f3, f10, f2, b, a, c, ?_, d⟩
  rw [d, f8]
  norm_num

/-- C10 (hook order).  A call of `tick` appends the hooks `dispatchEvents`,
`update` with the step given and the fixed step of the state, and `endFrame`,
in that order, and counts one tick.  Under any clock and from any state, the
trace of a call of `frameRenderingQueued` that executed `n` ticks is `n`
times the triple `dispatchEvents`, `update fixed fixed true`, `endFrame`,
followed by the call of `synchronizeMotion` when the blend is in `[0, 1]`
and by nothing otherwise. -/
theorem C10_hook_order (T : Nat → Nat) (s : TickState) :
    (∀ (f : Frame) (dt : ℚ) (smooth : Bool),
      (tick f dt smooth).trace =
        f.trace ++ [Hook.dispatchEvents, Hook.update dt f.state.fixed smooth, Hook.endFrame] ∧
      (tick f dt smooth).ticked = f.ticked + 1 ∧ (tick f dt smooth).state = f.state) ∧
    (frameRenderingQueued T s).trace =
      (List.replicate (frameRenderingQueued T s).ticked
        [Hook.dispatchEvents, Hook.update s.fixed s.fixed true, Hook.endFrame]).flatten ++
        (if 0 ≤ (frameRenderingQueued T s).state.blend ∧
            (frameRenderingQueued T s).state.blend ≤ 1 then
          [Hook.synchronizeMotion 1 (frameRenderingQueued T s).state.blend]
        else []) ∧
    (frameRenderingQueued T s).ticked ≤ (frameRenderingQueued T s).state.loop := by
  refine ⟨fun f dt smooth => ⟨rfl, rfl, rfl⟩, frame_trace T s, ?_⟩
  obtain ⟨g, hg, -, he⟩ := frame_general T s
  have h3 := hg.ticked_le
  rw [frameEntry_loop, frameEntry_ticked] at h3
  rw [he, synchronize_state, synchronize_ticked, setBlend_eq, loopTest_eq]
  show g.ticked ≤ g.state.loop
  omega


/-- C11 (overrun lock).  Under any clock and from any state: when iteration
`j` of the loop of a call overruns, that is when the reading after its tick
exceeds the reading of its loop condition by more than the fixed step, the
call ends with the lock closed and has executed at most `j + 1` ticks, exactly
`j + 1` when no earlier iteration overran; all `loop` iterations still add
`ticks` to `next` and are counted in `loop`; the next call opens the lock
before its loop. -/
theorem C11_overrun_lock (T : Nat → Nat) (s : TickState) (j : Nat)
    (hj : j < (frameRenderingQueued T s).state.loop)
    (hover : overrunAt T (entryReads s) s.fixed j) :
    (frameRenderingQueued T s).state.lock = true ∧
    (frameRenderingQueued T s).ticked ≤ j + 1 ∧
    ((∀ i, i < j → ¬overrunAt T (entryReads s) s.fixed i) →
      (frameRenderingQueued T s).ticked = j + 1) ∧
    (frameRenderingQueued T s).state.next % WORD =
      ((frameEntry T s).state.next + (frameRenderingQueued T s).state.loop * s.ticks) % WORD ∧
    (frameRenderingQueued T s).reads =
      entryReads s + 2 * (frameRenderingQueued T s).state.loop + 2 ∧
    (∀ T2 : Nat → Nat, (frameEntry T2 (frameRenderingQueued T s).state).state.lock = false) := by
  obtain ⟨g, hg, hk, he⟩ := frame_lock T s
  have h1 := hk.lock_iff
  have h2 := hk.ticked_le
  have h3 := hk.ticked_first
  have h4 := hg.next
  have h5 := hg.reads
  rw [frameEntry_loop, frameEntry_entryReads, frameEntry_fixed] at h1
  rw [frameEntry_loop, frameEntry_entryReads, frameEntry_fixed, frameEntry_ticked] at h2 h3
  rw [frameEntry_loop, frameEntry_ticks] at h4
  rw [frameEntry_loop, frameEntry_entryReads] at h5
  have hj2 : j < g.state.loop - 0 := by
    rw [he, synchronize_state, setBlend_eq, loopTest_eq] at hj
    exact hj
  refine ⟨?_, ?_, ?_, ?_, ?_, fun T2 => frameEntry_lock T2 _⟩
  · rw [he, synchronize_state, setBlend_eq, loopTest_eq]
    exact h1.mpr ⟨j, hj2, hover⟩
  · rw [he, synchronize_ticked, setBlend_eq, loopTest_eq]
    have := h2 j hj2 hover
    show g.ticked ≤ j + 1
    omega
  · intro hfirst
    rw [he, synchronize_ticked, setBlend_eq, loopTest_eq]
    have := h3 j hj2 hover hfirst
    show g.ticked = j + 1
    omega
  · rw [he, synchronize_state, setBlend_eq, loopTest_eq]
    exact h4
  · rw [he, synchronize_state, synchronize_reads, setBlend_eq, loopTest_eq]
    show g.reads + 1 + 1 = entryReads s + 2 * g.state.loop + 2
    omega

/-- C11 at the state the first frame at 0 leaves from the state that `run`
installs, under a clock that reads 100 and then 150: iteration 0 overruns. -/
theorem C11_overrun_lock_witness :
    0 < (frameRenderingQueued stallClock (onFrame 0 (runState zeroState)).state).state.loop ∧
    overrunAt stallClock (entryReads (onFrame 0 (runState zeroState)).state)
      (onFrame 0 (runState zeroState)).state.fixed 0 ∧
    (frameRenderingQueued stallClock (onFrame 0 (runState zeroState)).state).state.lock
      = true ∧
    (frameRenderingQueued stallClock (onFrame 0 (runState zeroState)).state).ticked ≤ 0 + 1 ∧
    ((∀ i, i < 0 → ¬overrunAt stallClock (entryReads (onFrame 0 (runState zeroState)).state)
        (onFrame 0 (runState zeroState)).state.fixed i) →
      (frameRenderingQueued stallClock (onFrame 0 (runState zeroState)).state).ticked
        = 0 + 1) ∧
    (frameRenderingQueued stallClock (onFrame 0 (runState zeroState)).state).state.next % WORD =
      ((frameEntry stallClock (onFrame 0 (runState zeroState)).state).state.next +
        (frameRenderingQueued stallClock (onFrame 0 (runState zeroState)).state).state.loop *
          (onFrame 0 (runState zeroState)).state.ticks) % WORD ∧
    (frameRenderingQueued stallClock (onFrame 0 (runState zeroState)).state).reads =
      entryReads (onFrame 0 (runState zeroState)).state +
        2 * (frameRenderingQueued stallClock (onFrame 0 (runState zeroState)).state).state.loop
        + 2 ∧
    (∀ T2 : Nat → Nat,
      (frameEntry T2
        (frameRenderingQueued stallClock
          (onFrame 0 (runState zeroState)).state).state).state.lock = false) := by
  have h0 : 0 < WORD := by unfold WORD; omega
  obtain ⟨_, _, hn, hi, _, hs, hf, _⟩ := run_first_fields zeroState 0 h0
  have hj : 0 < (frameRenderingQueued stallClock
      (onFrame 0 (runState zeroState)).state).state.loop :=
    (frame_ticks_pos stallClock _ hi
      (by rw [hn]; show 100 % WORD > 0; unfold WORD; omega) (by rw [hs]; omega)).1
  have hover : overrunAt stallClock (entryReads (onFrame 0 (runState zeroState)).state)
      (onFrame 0 (runState zeroState)).state.fixed 0 := by
    have hu : usub (150 % WORD) (100 % WORD) = 50 := by unfold usub WORD; omega
    rw [overrunAt, entryReads, hi, hf]
    show ((usub (150 % WORD) (100 % WORD) : Nat) : ℚ) * ENGINE_TIME_SCALE > 1 / 60
    rw [hu, ENGINE_TIME_SCALE]
    norm_num
  exact ⟨hj, hover, C11_overrun_lock stallClock _ 0 hj hover⟩


/-- C12 (tick-boundary alignment).  Under any clock and from any state, a
call leaves `next` equal, as a word, to its value on loop entry (the stored
`next`, or the first reading when the first-frame branch runs) plus
`loop * ticks`; it does not change `rate`, `ticks`, `skip`, `fixed` and
`invt`, nor `prev` once the state is initialised.  In a run from a state that
is not initialised, with `n` loop iterations so far, `next` is, as a word,
the value of the first frame, kept in `prev`, plus `n * ticks`, exactly so
when that sum is below `WORD`, and `next - prev` is a whole multiple of
`ticks` when `ticks` divides `WORD`, as 16 does; the same holds after the
call with `n + loop` iterations, and the configuration is that of the start. -/
theorem C12_tick_alignment (T : Nat → Nat) (s : TickState) :
    (frameRenderingQueued T s).state.next % WORD =
      ((if s.init then s.next else T 0 % WORD) +
        (frameRenderingQueued T s).state.loop * s.ticks) % WORD ∧
    (frameRenderingQueued T s).state.rate = s.rate ∧
    (frameRenderingQueued T s).state.ticks = s.ticks ∧
    (frameRenderingQueued T s).state.skip = s.skip ∧
    (frameRenderingQueued T s).state.fixed = s.fixed ∧
    (frameRenderingQueued T s).state.invt = s.invt ∧
    (s.init = true → (frameRenderingQueued T s).state.prev = s.prev) ∧
    (∀ (s0 : TickState) (n : Nat), s0.init = false → RunFrom s0 n s →
      s.next % WORD = (s.prev + n * s.ticks) % WORD ∧
      (s.prev + n * s.ticks < WORD → s.next = s.prev + n * s.ticks) ∧
      (s.ticks ∣ WORD → (s.ticks : ℤ) ∣ (s.next : ℤ) - (s.prev : ℤ)) ∧
      (frameRenderingQueued T s).state.next % WORD =
        (s.prev + (n + (frameRenderingQueued T s).state.loop) * s.ticks) % WORD ∧
      (frameRenderingQueued T s).state.prev = s.prev ∧
      s.rate = s0.rate ∧ s.ticks = s0.ticks ∧ s.skip = s0.skip ∧ s.fixed = s0.fixed ∧
      s.invt = s0.invt) := by
  obtain ⟨a, b, c, d, e, f, g, -⟩ := frame_next T s
  have hprev : s.init = true → (frameRenderingQueued T s).state.prev = s.prev := by
    intro hi
    rw [g, frameEntry_init T s hi]
  refine ⟨?_, b, c, d, e, f, hprev, ?_⟩
  · rw [a]
    cases h : s.init
    · rw [frameEntry_first T s h]; rfl
    · rw [frameEntry_init T s h]; rfl
  · intro s0 n h0 hr
    obtain ⟨hi, hlt, hn, h1, h2, h3, h4, h5⟩ := run_inv s0 h0 n s hr
    obtain ⟨_, _, hn2, _⟩ := run_inv s0 h0 _ _ (RunFrom.frame T n s hr)
    rw [hprev hi, c] at hn2
    refine ⟨hn, ?_, fun hW => dvd_of_word_congr _ _ _ n hW hn, hn2, hprev hi, h1, h2, h3,
      h4, h5⟩
    intro hsmall
    rw [Nat.mod_eq_of_lt hlt, Nat.mod_eq_of_lt hsmall] at hn
    exact hn

/-- C12 at a frame with clock value 5000 that follows the first frame at 0 of
the state that `run` installs. -/
theorem C12_tick_alignment_witness :
    (onFrame 0 (runState zeroState)).state.init = true ∧
    (runState zeroState).init = false ∧
    RunFrom (runState zeroState) (onFrame 0 (runState zeroState)).state.loop
      (onFrame 0 (runState zeroState)).state ∧
    (onFrame 0 (runState zeroState)).state.prev +
      (onFrame 0 (runState zeroState)).state.loop *
        (onFrame 0 (runState zeroState)).state.ticks < WORD ∧
    (onFrame 5000 (onFrame 0 (runState zeroState)).state).state.next % WORD =
      ((if (onFrame 0 (runState zeroState)).state.init then
          (onFrame 0 (runState zeroState)).state.next else 5000 % WORD) +
        (onFrame 5000 (onFrame 0 (runState zeroState)).state).state.loop *
          (onFrame 0 (runState zeroState)).state.ticks) % WORD ∧
    (onFrame 5000 (onFrame 0 (runState zeroState)).state).state.prev =
      (onFrame 0 (runState zeroState)).state.prev ∧
    (onFrame 0 (runState zeroState)).state.next =
      (onFrame 0 (runState zeroState)).state.prev +
        (onFrame 0 (runState zeroState)).state.loop *
          (onFrame 0 (runState zeroState)).state.ticks ∧
    (onFrame 5000 (onFrame 0 (runState zeroState)).state).state.next % WORD =
      ((onFrame 0 (runState zeroState)).state.prev +
        ((onFrame 0 (runState zeroState)).state.loop +
          (onFrame 5000 (onFrame 0 (runState zeroState)).state).state.loop) *
          (onFrame 0 (runState zeroState)).state.ticks) % WORD := by
  have h0 : 0 < WORD := by unfold WORD; omega
  obtain ⟨hl, _, _, hi, ht, _, _, _, _, hp⟩ := run_first_fields zeroState 0 h0
  have hi0 : (runState zeroState).init = false := by rw [runState_eq]
  have hr : RunFrom (runState zeroState) (onFrame 0 (runState zeroState)).state.loop
      (onFrame 0 (runState zeroState)).state := RunFrom.first (fun _ => 0)
  have hsmall : (onFrame 0 (runState zeroState)).state.prev +
      (onFrame 0 (runState zeroState)).state.loop *
        (onFrame 0 (runState zeroState)).state.ticks < WORD := by
    rw [hl, hp, ht]; exact h0
  have key := C12_tick_alignment (fun _ => 5000) (onFrame 0 (runState zeroState)).state
  have run := key.2.2.2.2.2.2.2 (runState zeroState) _ hi0 hr
  exact ⟨hi, hi0, hr, hsmall, key.1, key.2.2.2.2.2.2.1 hi, run.2.1 hsmall, run.2.2.2.1⟩


/-- C13 (demo animation cycling).  From members with
`0 <= m_curAct < Momo_MAX` and for either state of the space key, one call of
`MomoApp::update` sets `m_curAct` to `(m_curAct + 1) mod Momo_MAX` and
`m_cache` to true when the key is down and `m_cache` is false; otherwise it
leaves `m_curAct` as it is and `m_cache` stays set only while the key is
down.  So the index stays in `[0, Momo_MAX)` after one and after any sequence
of updates, and holding the key down over `n + 1` consecutive updates, from
`m_cache = false`, advances the index once. -/
theorem C13_animation_cycling (app : MomoApp) (space : Bool)
    (h0 : 0 ≤ app.m_curAct) (h1 : app.m_curAct < Momo_MAX) :
    (space = true → app.m_cache = false →
      (MomoApp.update app space).1.m_curAct = (app.m_curAct + 1) % Momo_MAX ∧
      (MomoApp.update app space).1.m_cache = true) ∧
    (¬(space = true ∧ app.m_cache = false) →
      (MomoApp.update app space).1.m_curAct = app.m_curAct ∧
      (MomoApp.update app space).1.m_cache = (app.m_cache && space)) ∧
    (0 ≤ (MomoApp.update app space).1.m_curAct ∧
      (MomoApp.update app space).1.m_curAct < Momo_MAX) ∧
    (∀ keys : List Bool,
      0 ≤ (MomoApp.updates app keys).m_curAct ∧
      (MomoApp.updates app keys).m_curAct < Momo_MAX) ∧
    (app.m_cache = false → ∀ n : Nat,
      (MomoApp.updates app (List.replicate (n + 1) true)).m_curAct =
        (app.m_curAct + 1) % Momo_MAX ∧
      (MomoApp.updates app (List.replicate (n + 1) true)).m_cache = true) := by
  refine ⟨?_, ?_, update_range app space h0 h1, fun keys => updates_range keys app h0 h1, ?_⟩
  · intro hs hc
    subst hs
    obtain ⟨a, b⟩ := update_pressed app hc h0 h1
    exact ⟨b, a⟩
  · intro h
    obtain ⟨a, b⟩ := update_idle app space h
    exact ⟨b, a⟩
  · intro hc n
    obtain ⟨a, b⟩ := update_pressed app hc h0 h1
    obtain ⟨c, d⟩ := updates_held n (MomoApp.update app true).1 a
    rw [List.replicate_succ]
    show (MomoApp.updates (MomoApp.update app true).1 (List.replicate n true)).m_curAct = _ ∧
      (MomoApp.updates (MomoApp.update app true).1 (List.replicate n true)).m_cache = true
    exact ⟨c.trans b, d⟩

/-- C13 at the last clip, index 35, with the space key pressed: the index
wraps to 0, and it is still 0 after the key is held for three updates. -/
theorem C13_animation_cycling_witness :
    (0 : Int) ≤ 35 ∧ (35 : Int) < Momo_MAX ∧
    (MomoApp.update { MomoApp.start (fun _ => true) with m_curAct := 35 } true).1.m_curAct
      = 0 ∧
    (MomoApp.update { MomoApp.start (fun _ => true) with m_curAct := 35 } true).1.m_cache
      = true ∧
    (MomoApp.updates { MomoApp.start (fun _ => true) with m_curAct := 35 }
      (List.replicate (2 + 1) true)).m_curAct = 0 := by
  have h0 : (0 : Int) ≤ 35 := by omega
  have h1 : (35 : Int) < Momo_MAX := by rw [Momo_MAX_eq]; omega
  have key := C13_animation_cycling
    { MomoApp.start (fun _ => true) with m_curAct := 35 } true h0 h1
  have e : ((35 : Int) + 1) % Momo_MAX = 0 := by rw [Momo_MAX_eq]; rfl
  have k1 := key.1 rfl rfl
  have k5 := (key.2.2.2.2 rfl 2).1
  rw [show ({ MomoApp.start (fun _ => true) with m_curAct := 35 } : MomoApp).m_curAct = 35
    from rfl, e] at k1 k5
  exact ⟨h0, h1, k1.1, k1.2, k5⟩


end GameKit
